import Mathlib

/-!
Formal model of the kusanagi-sdk-python protocol core.

This development embeds, in Lean, the parts of the SDK that the verified
claims are about:

* the payload document data model (`kusanagi/sdk/lib/payload/__init__.py`),
* the msgpack custom-type hooks (`kusanagi/sdk/lib/msgpack.py`) and the
  date and time formatting helpers (`kusanagi/sdk/lib/formatting.py`),
* the transport merge algorithm (`kusanagi/sdk/lib/payload/utils.py` and
  `kusanagi/sdk/lib/payload/transport.py`),
* the server response flag computation and request dispatch
  (`kusanagi/sdk/lib/server.py`),
* the run-time call client (`kusanagi/sdk/lib/call.py`).

Python values transported in payloads are modelled by the inductive type
`Value`.  Python dictionaries are modelled as insertion-ordered association
lists, matching the ordered-dict semantics of Python 3 dictionaries.
Python floats are modelled by their 64-bit IEEE-754 bit pattern, which the
msgpack wire format preserves exactly.  Mutation is modelled by explicit
state passing; Python exceptions by `Except` results.
-/

namespace KusanagiSDK

/-- A Python value as it appears in SDK payloads.

Scalars are null, booleans, arbitrary precision integers, floats
(identified by their IEEE-754 bit pattern), strings and byte strings.
Containers are lists and insertion-ordered string-keyed dictionaries.
The remaining constructors model the Python objects given special
treatment by the serializer hooks in `msgpack.py`:

* `decimal s` models a `decimal.Decimal` object through its canonical
  string representation `s` (the result of Python `str()` on it),
  restricted to plain finite decimals;
* `date y m d` models a naive `datetime.date`;
* `datetime y mo d h mi s us` models a naive `datetime.datetime`;
* `timeofday h mi s` models a `time.struct_time` through the fields the
  serializer uses. -/
inductive Value where
  | null : Value
  | bool (b : Bool) : Value
  | int (n : Int) : Value
  | float (bits : Nat) : Value
  | str (s : String) : Value
  | bin (bs : List Nat) : Value
  | arr (xs : List Value) : Value
  | map (m : List (String × Value)) : Value
  | decimal (s : String) : Value
  | date (y m d : Nat) : Value
  | datetime (y mo d h mi s us : Nat) : Value
  | timeofday (h mi s : Nat) : Value
deriving Repr

/-- Dictionaries in payloads: insertion-ordered association lists. -/
abbrev Dict := List (String × Value)

/-- Key lookup in a Python dictionary (first matching entry). -/
def dictGet (m : Dict) (k : String) : Option Value :=
  match m with
  | [] => none
  | (k', v) :: t => if k' = k then some v else dictGet t k

/-- Python dictionary item assignment: an existing key keeps its position
and gets the new value, a new key is appended at the end. -/
def dictSet (m : Dict) (k : String) (v : Value) : Dict :=
  match m with
  | [] => [(k, v)]
  | (k', v') :: t => if k' = k then (k, v) :: t else (k', v') :: dictSet t k v

/-- Python `del m[k]`: remove the first entry with the given key. -/
def dictDel (m : Dict) (k : String) : Dict :=
  match m with
  | [] => []
  | (k', v') :: t => if k' = k then t else (k', v') :: dictDel t k

/-! ### Decimal digit printing and parsing

Models the number rendering used by Python `%` date formatting codes and
by `str()` on integers, together with the reverse parsing performed by
`strptime`.  Numbers are rendered in base 10, most significant digit
first, optionally left padded with zeros to a fixed field width. -/

/-- The character for a single decimal digit. -/
def digitChar (d : Nat) : Char := Char.ofNat (48 + d)

/-- The numeric value of a decimal digit character. -/
def charDigit (c : Char) : Nat := c.toNat - 48

/-- Decimal digit characters of a natural number, most significant first
(`str()` rendering, so zero is rendered as a single `0`). -/
def natChars (n : Nat) : List Char :=
  if n = 0 then ['0'] else ((Nat.digits 10 n).map digitChar).reverse

/-- Zero-pad the decimal rendering of `n` on the left to width `k`. -/
def padChars (k n : Nat) : List Char :=
  List.replicate (k - (natChars n).length) '0' ++ natChars n

/-- Numeric value of a big-endian digit list. -/
def digitsVal (l : List Nat) : Nat := l.foldl (fun a d => 10 * a + d) 0

/-- Parse a non-empty all-digit character list as a natural number
(the numeric field matching done by `strptime`). -/
def parseNat (l : List Char) : Option Nat :=
  if l ≠ [] ∧ l.all Char.isDigit then some (digitsVal (l.map charDigit))
  else none

/-! ### Splitting and joining on a separator character

Models Python `str.split(sep)` and `sep.join(parts)` for the one-character
separators used by the serializer and the date parsing. -/

/-- Python `str.split(sep)` for a one-character separator. -/
def splitCh (c : Char) : List Char → List (List Char)
  | [] => [[]]
  | a :: t =>
    let r := splitCh c t
    if a = c then [] :: r else (a :: r.headD []) :: r.tail

/-- Python `sep.join(parts)` for a one-character separator. -/
def joinCh (c : Char) : List (List Char) → List Char
  | [] => []
  | [p] => p
  | p :: q :: ps => p ++ c :: joinCh c (q :: ps)

/-! ### Date and time formatting (`kusanagi/sdk/lib/formatting.py`)

The source formats with `DATE_FORMAT = '%Y-%m-%d'`,
`TIME_FORMAT = '%H:%M:%S'` and
`DATETIME_FORMAT = '%Y-%m-%dT%H:%M:%S.%f+00:00'`, and parses the same
formats back through `strptime`.  The `%m`, `%d`, `%H`, `%M`, `%S` codes
render zero padded to width 2, `%f` to width 6; `%Y` renders the year
unpadded (the model is used with four-digit years, where padded and
unpadded rendering coincide).  `strptime` accepts 1-4 digits for `%Y`,
1-2 for the width-2 codes and 1-6 for `%f` (scaled to microseconds), and
validates the calendar ranges of every field. -/

/-- Number of days in a month, with the Gregorian leap rule
(used by `strptime` to validate `%d`). -/
def daysInMonth (y m : Nat) : Nat :=
  if m = 2 then (if (y % 4 = 0 ∧ y % 100 ≠ 0) ∨ y % 400 = 0 then 29 else 28)
  else if m = 4 ∨ m = 6 ∨ m = 9 ∨ m = 11 then 30 else 31

/-- Field ranges enforced by Python `datetime.date`. -/
def validDate (y m d : Nat) : Prop :=
  1 ≤ y ∧ y ≤ 9999 ∧ 1 ≤ m ∧ m ≤ 12 ∧ 1 ≤ d ∧ d ≤ daysInMonth y m

instance (y m d : Nat) : Decidable (validDate y m d) := by
  unfold validDate; infer_instance

/-- Field ranges enforced by Python `datetime.datetime` (naive). -/
def validDatetime (y mo d h mi s us : Nat) : Prop :=
  validDate y mo d ∧ h ≤ 23 ∧ mi ≤ 59 ∧ s ≤ 59 ∧ us ≤ 999999

instance (y mo d h mi s us : Nat) : Decidable (validDatetime y mo d h mi s us) := by
  unfold validDatetime; infer_instance

/-- `formatting.date_to_str`: `value.strftime('%Y-%m-%d')`. -/
def dateToStr (y m d : Nat) : List Char :=
  natChars y ++ '-' :: (padChars 2 m ++ '-' :: padChars 2 d)

/-- `formatting.str_to_date`: `datetime.strptime(value, '%Y-%m-%d').date()`,
including the field-width and calendar validation `strptime` performs.
`none` models the `ValueError` raised on a malformed string. -/
def strToDate (l : List Char) : Option (Nat × Nat × Nat) :=
  match splitCh '-' l with
  | [ys, ms, ds] => do
    let y ← parseNat ys
    let m ← parseNat ms
    let d ← parseNat ds
    if ys.length ≤ 4 ∧ ms.length ≤ 2 ∧ ds.length ≤ 2 ∧ validDate y m d
    then some (y, m, d) else none
  | _ => none

/-- `formatting.time_to_str`: `time.strftime('%H:%M:%S', value)`. -/
def timeToStr (h mi s : Nat) : List Char :=
  padChars 2 h ++ ':' :: (padChars 2 mi ++ ':' :: padChars 2 s)

/-- `formatting.datetime_to_str`:
`value.strftime('%Y-%m-%dT%H:%M:%S.%f+00:00')`. -/
def datetimeToStr (y mo d h mi s us : Nat) : List Char :=
  dateToStr y mo d ++ 'T' :: (timeToStr h mi s ++ '.' ::
    (padChars 6 us ++ ['+', '0', '0', ':', '0', '0']))

/-- `formatting.str_to_datetime`:
`datetime.strptime(value, '%Y-%m-%dT%H:%M:%S.%f+00:00')`,
including `strptime` validation.  The `%f` field is scaled to
microseconds by right padding, and the trailing UTC offset must match the
literal `+00:00` of the format.  `none` models the raised `ValueError`. -/
def strToDatetime (l : List Char) :
    Option (Nat × Nat × Nat × Nat × Nat × Nat × Nat) :=
  match splitCh 'T' l with
  | [dpart, tpart] => do
    let (y, mo, d) ← strToDate dpart
    match splitCh '+' tpart with
    | [main, off] => do
      if off ≠ ['0', '0', ':', '0', '0'] then none
      else
        match splitCh ':' main with
        | [hs, mis, sf] => do
          let h ← parseNat hs
          let mi ← parseNat mis
          match splitCh '.' sf with
          | [ss, fs] => do
            let s ← parseNat ss
            let f ← parseNat fs
            if hs.length ≤ 2 ∧ mis.length ≤ 2 ∧ ss.length ≤ 2 ∧ fs.length ≤ 6 ∧
               h ≤ 23 ∧ mi ≤ 59 ∧ s ≤ 61
            then some (y, mo, d, h, mi, s, f * 10 ^ (6 - fs.length)) else none
          | _ => none
        | _ => none
    | _ => none
  | _ => none

/-- Characters that may occur in a formatted value: decimal digits plus a
given set of punctuation characters. -/
def isDigitOr (extra : List Char) (c : Char) : Bool :=
  c.isDigit || extra.contains c

/-! ### The serializer (`kusanagi/sdk/lib/msgpack.py`)

`pack` and `unpack` compose the repository's hook functions `_encode`
(the `default=` hook of `msgpack.packb`) and `_decode` (the `list_hook=`
of `msgpack.unpackb`) with the third-party msgpack byte codec.  The byte
codec itself is an external collaborator (the spec explicitly excludes
the binary serialization library) and is a lossless bijection between
byte strings and its self-describing data model.  We therefore model
`pack`/`unpack` at that data-model boundary: `Wire` is the msgpack data
model (with `use_bin_type=True` and `raw=False`, so strings and binary
are distinct), `pyPack` is `packb` with the `_encode` default hook and
its 64-bit integer range check, and `pyUnpack` is `unpackb` with the
`_decode` list hook applied to every decoded array, bottom up. -/

/-- The msgpack data model: what the byte codec can represent. -/
inductive Wire where
  | nil : Wire
  | bool (b : Bool) : Wire
  | int (n : Int) : Wire
  | float (bits : Nat) : Wire
  | str (s : String) : Wire
  | bin (bs : List Nat) : Wire
  | arr (xs : List Wire) : Wire
  | map (m : List (String × Wire)) : Wire
deriving Repr

/-- Canonical integer part of a plain decimal string: non-empty digits
with no leading zero (except the single digit `0` itself). -/
def decIntPartOk (l : List Char) : Bool :=
  !l.isEmpty && l.all Char.isDigit && (decide (l.length = 1) || !(l.headD '0' = '0'))

/-- Canonical plain finite decimal literal: an optional minus sign, a
canonical integer part and an optional non-empty all-digit fraction.
These are exactly the strings produced by `str()` on a plain finite
`decimal.Decimal`, on which the `Decimal` string constructor is an exact
inverse of `str()`.  Exotic literals (exponents, specials) are treated
conservatively as unparseable. -/
def decCanonCore (core : List Char) : Bool :=
  match splitCh '.' core with
  | [ip] => decIntPartOk ip
  | [ip, fp] => decIntPartOk ip && !fp.isEmpty && fp.all Char.isDigit
  | _ => false

def decCanonChars (l : List Char) : Bool :=
  decCanonCore (if l.headD ' ' = '-' then l.tail else l)

/-- Python `decimal.Decimal(s)` followed by rendering the object through
its canonical string: models the stdlib decimal constructor on the class
of plain finite decimals.  `none` models a raised `InvalidOperation`. -/
def pyDecimalParse (l : List Char) : Option Value :=
  if decCanonChars l then some (.decimal (String.mk l)) else none

/-- The character data of a list of string values
(`none` if any element is not a string). -/
def allStrData : List Value → Option (List (List Char))
  | [] => some []
  | .str s :: t => (allStrData t).map (s.data :: ·)
  | _ => none

/-- Python `'.'.join(x)` on an arbitrary decoded value: joins a list of
strings, iterates a string character-wise, iterates the keys of a dict;
`none` models the `TypeError` raised on any other operand. -/
def pyJoinDots : Value → Option (List Char)
  | .arr xs => (allStrData xs).map (joinCh '.')
  | .str s => some (joinCh '.' (s.data.map (fun c => [c])))
  | .map m => some (joinCh '.' (m.map (fun p => p.1.data)))
  | _ => none

/-- The typed branch of `_decode` for a recognized type name: the
conversion of the encoded form back to the Python object, where `none`
models the `except Exception` branch that yields `None`.  An unrecognized
type name is not handled here. -/
def decodeTyped (t : String) (payload : Value) : Option Value :=
  if t = "decimal" then
    some (match pyJoinDots payload with
          | some chars => (pyDecimalParse chars).getD .null
          | none => .null)
  else if t = "datetime" then
    some (match payload with
          | .str s =>
            match strToDatetime s.data with
            | some (y, mo, d, h, mi, sec, us) => .datetime y mo d h mi sec us
            | none => .null
          | _ => .null)
  else if t = "date" then
    some (match payload with
          | .str s =>
            match strToDate s.data with
            | some (y, m, d) => .date y m d
            | none => .null
          | _ => .null)
  else if t = "time" then some payload
  else none

/-- `msgpack._decode`, applied by `unpackb` to every decoded list:
a 3-element list whose first element is the string `"type"` is decoded
through the type table; anything else is returned unchanged. -/
def listHook (ys : List Value) : Value :=
  match ys with
  | [a, ty, payload] =>
    match a with
    | .str s =>
      if s = "type" then
        match ty with
        | .str t => (decodeTyped t payload).getD (.arr ys)
        | _ => .arr ys
      else .arr ys
    | _ => .arr ys
  | _ => .arr ys

mutual

/-- `msgpack.pack` up to the external byte codec: `msgpack.packb` with
`default=_encode` and `use_bin_type=True`.  Natively representable values
map to their wire counterparts (integers only within the 64-bit range the
codec accepts, `OverflowError` outside); the objects handled by `_encode`
are encoded as a 3-element array `["type", name, encoded-form]`; any
other object raises `TypeError` (modelled by phantom values only, since
`Value` covers exactly the encodable objects). -/
def pyPack : Value → Except String Wire
  | .null => .ok .nil
  | .bool b => .ok (.bool b)
  | .int n =>
    if -(2 ^ 63 : Int) ≤ n ∧ n < 2 ^ 64 then .ok (.int n)
    else .error "OverflowError: Integer value out of range"
  | .float bits => .ok (.float bits)
  | .str s => .ok (.str s)
  | .bin bs => .ok (.bin bs)
  | .arr xs => do .ok (.arr (← pyPackList xs))
  | .map m => do .ok (.map (← pyPackDict m))
  | .decimal s =>
    .ok (.arr [.str "type", .str "decimal",
      .arr ((splitCh '.' s.data).map (fun p => Wire.str (String.mk p)))])
  | .date y m d =>
    .ok (.arr [.str "type", .str "date", .str (String.mk (dateToStr y m d))])
  | .datetime y mo d h mi s us =>
    .ok (.arr [.str "type", .str "datetime",
      .str (String.mk (datetimeToStr y mo d h mi s us))])
  | .timeofday h mi s =>
    .ok (.arr [.str "type", .str "time", .str (String.mk (timeToStr h mi s))])

def pyPackList : List Value → Except String (List Wire)
  | [] => .ok []
  | x :: t => do .ok ((← pyPack x) :: (← pyPackList t))

def pyPackDict : List (String × Value) → Except String (List (String × Wire))
  | [] => .ok []
  | (k, v) :: t => do .ok ((k, ← pyPack v) :: (← pyPackDict t))

end

mutual

/-- `msgpack.unpack` after the external byte codec: `msgpack.unpackb`
with `list_hook=_decode` and `raw=False`.  The list hook is applied to
every decoded array, bottom up. -/
def pyUnpack : Wire → Value
  | .nil => .null
  | .bool b => .bool b
  | .int n => .int n
  | .float bits => .float bits
  | .str s => .str s
  | .bin bs => .bin bs
  | .arr xs => listHook (pyUnpackList xs)
  | .map m => .map (pyUnpackDict m)

def pyUnpackList : List Wire → List Value
  | [] => []
  | x :: t => pyUnpack x :: pyUnpackList t

def pyUnpackDict : List (String × Wire) → List (String × Value)
  | [] => []
  | (k, w) :: t => (k, pyUnpack w) :: pyUnpackDict t

end

/-- Arrays of the extension-tuple shape: 3 elements, first the string
`"type"`, second one of the four recognized type names.  These are
exactly the arrays the list hook transforms during decoding. -/
def extTag (xs : List Value) : Bool :=
  match xs with
  | [a, t, _] =>
    match a, t with
    | .str s, .str ty =>
      (s == "type") &&
        ((ty == "decimal") || (ty == "datetime") || (ty == "date") || (ty == "time"))
    | _, _ => false
  | _ => false

/-- IEEE-754 double NaN bit patterns (exponent all ones, payload
non-zero).  On these, Python `==` is never true, so value equality after
a round trip cannot hold. -/
def isNanBits (bits : Nat) : Bool :=
  ((bits / 2 ^ 52) % 2 ^ 11 == 2047) && (bits % 2 ^ 52 != 0)

mutual

/-- The class of values for which the serializer round trip is exact:

* integers within the codec's 64-bit range;
* floats with in-range, non-NaN bit patterns (bit-pattern equality);
* decimals whose canonical string is a plain finite decimal;
* dates and naive datetimes with valid in-range fields and 4-digit years;
* no `time.struct_time` (its decoding yields the `HH:MM:SS` string);
* containers of such values, where no array has the extension-tuple
  shape (the list hook would transform it on decoding). -/
def roundSafe : Value → Bool
  | .null => true
  | .bool _ => true
  | .int n => decide (-(2 ^ 63 : Int) ≤ n ∧ n < 2 ^ 64)
  | .float bits => decide (bits < 2 ^ 64) && !(isNanBits bits)
  | .str _ => true
  | .bin _ => true
  | .arr xs => !(extTag xs) && roundSafeList xs
  | .map m => roundSafeDict m
  | .decimal s => decCanonChars s.data
  | .date y m d => decide (validDate y m d ∧ 1000 ≤ y)
  | .datetime y mo d h mi s us => decide (validDatetime y mo d h mi s us ∧ 1000 ≤ y)
  | .timeofday _ _ _ => false

def roundSafeList : List Value → Bool
  | [] => true
  | x :: t => roundSafe x && roundSafeList t

def roundSafeDict : List (String × Value) → Bool
  | [] => true
  | (_, v) :: t => roundSafe v && roundSafeDict t

end

/-! ### The payload document (`kusanagi/sdk/lib/payload/__init__.py`)

A `Payload` is a Python dict traversed by paths (lists of string keys).
The traversal `item = item[name]` succeeds only through dictionaries: on
any other value Python raises `TypeError` or `KeyError`, which the source
catches (`except (TypeError, KeyError)`), so the model's case analysis on
the traversed value is exactly the source's exception handling.  The
mutators `set`/`append`/`extend` share one traversal loop built on
`dict.setdefault`; they are modelled by the shared walker `walkMut`.
`delete` is the only operation with an uncaught exception: the unpacking
`*path, name = path` raises `ValueError` on an empty path, so it returns
`Except`. -/

/-- One traversal step `item[name]` (`None` models the caught
`TypeError`/`KeyError`). -/
def getStep (v : Value) (k : String) : Option Value :=
  match v with
  | .map m => dictGet m k
  | _ => none

/-- Path traversal from an arbitrary item. -/
def getPathV : Value → List String → Option Value
  | v, [] => some v
  | v, k :: rest =>
    match getStep v k with
    | some v' => getPathV v' rest
    | none => none

/-- Path traversal from the payload root. -/
def getPathM (m : Dict) (path : List String) : Option Value :=
  getPathV (.map m) path

/-- `Payload.exists` (without prefixing): true when the full path can be
traversed. -/
def pExists (m : Dict) (path : List String) : Bool :=
  (getPathM m path).isSome

/-- `Payload.get` (without prefixing): the traversed value, or the
default when the path does not exist. -/
def pGet (m : Dict) (path : List String) (default : Value) : Value :=
  (getPathM m path).getD default

/-- The shared mutator walk of `Payload.set`/`append`/`extend`: walk the
path with `item.setdefault(name, {})`, creating intermediate dictionaries
for missing segments; apply `f` at the final segment; stop with `False`
and no change when an intermediate segment holds a non-dictionary (the
caught `AttributeError`/`TypeError`).  `emptyRes` is the result the
source's loop produces for an empty path (its `for` body never runs). -/
def walkMut (f : Dict → String → Bool × Dict) (emptyRes : Bool) :
    Dict → List String → Bool × Dict
  | m, [] => (emptyRes, m)
  | m, k :: rest =>
    match rest with
    | [] => f m k
    | _ :: _ =>
      match dictGet m k with
      | none =>
        let r := walkMut f emptyRes [] rest
        (r.1, dictSet m k (.map r.2))
      | some (.map m') =>
        let r := walkMut f emptyRes m' rest
        (r.1, dictSet m k (.map r.2))
      | some _ => (false, m)

/-- `Payload.set` (without prefixing): assign at the final segment. -/
def pSet (m : Dict) (path : List String) (v : Value) : Bool × Dict :=
  walkMut (fun mm k => (true, dictSet mm k v)) true m path

/-- `Payload.append` (without prefixing): `setdefault(name, [])` then
append when the value is a list, otherwise fail. -/
def pAppend (m : Dict) (path : List String) (v : Value) : Bool × Dict :=
  walkMut (fun mm k =>
    match dictGet mm k with
    | none => (true, dictSet mm k (.arr [v]))
    | some (.arr xs) => (true, dictSet mm k (.arr (xs ++ [v])))
    | some _ => (false, mm)) false m path

/-- `Payload.extend` (without prefixing): `setdefault(name, [])` then
concatenate when the value is a list, otherwise fail. -/
def pExtend (m : Dict) (path : List String) (vs : List Value) : Bool × Dict :=
  walkMut (fun mm k =>
    match dictGet mm k with
    | none => (true, dictSet mm k (.arr vs))
    | some (.arr xs) => (true, dictSet mm k (.arr (xs ++ vs)))
    | some _ => (false, mm)) false m path

/-- Split a list into its leading part and last element
(Python `*path, name = path`). -/
def splitLast : List String → Option (List String × String)
  | [] => none
  | k :: rest =>
    match splitLast rest with
    | none => some ([], k)
    | some pr => some (k :: pr.1, pr.2)

/-- Replace the dictionary found at a traversable path of dictionaries
(models Python's in-place mutation of the object found by traversal). -/
def updAt : Dict → List String → Dict → Dict
  | _, [], newm => newm
  | m, k :: rest, newm =>
    match dictGet m k with
    | some (.map m') => dictSet m k (.map (updAt m' rest newm))
    | _ => m

/-- `Payload.delete` (without prefixing): `*path, name = path` raises
`ValueError` on an empty path; otherwise look up the parent and remove
the final key when the parent is a dictionary containing it. -/
def pDelete (m : Dict) (path : List String) : Except String (Bool × Dict) :=
  match splitLast path with
  | none => .error "ValueError: not enough values to unpack"
  | some (par, k) =>
    match getPathM m par with
    | some (.map pm) =>
      if (dictGet pm k).isSome then .ok (true, updAt m par (dictDel pm k))
      else .ok (false, m)
    | _ => .ok (false, m)

/-! ### Reference document model

Modelled from the spec: "a reference in-memory map built with equivalent
plain operations" (§8), with the operations described in §3: `set`
"creates intermediate maps as needed; fails silently — returns false —
if an intermediate segment is a non-map"; `append` "creates a sequence
if absent; appends if present and is a sequence; fails if present and
not a sequence"; `extend` "same but concatenates"; `delete` "removes
only the final segment; no-op if absent".  The reference decomposes each
mutation as a check (`pathClear`) followed by a pure functional write
(`writeAt`), rather than the source's single mutating pass. -/

/-- Every intermediate segment of the path is a map or missing. -/
def pathClear (m : Dict) (p : List String) : Bool :=
  match p with
  | [] => true
  | k :: rest =>
    match rest with
    | [] => true
    | _ :: _ =>
      match dictGet m k with
      | none => true
      | some (.map m') => pathClear m' rest
      | some _ => false

/-- Pure functional write at a path, creating intermediate maps. -/
def writeAt (m : Dict) (p : List String) (w : Value) : Dict :=
  match p with
  | [] => m
  | k :: rest =>
    match rest with
    | [] => dictSet m k w
    | _ :: _ =>
      match dictGet m k with
      | some (.map m') => dictSet m k (.map (writeAt m' rest w))
      | _ => dictSet m k (.map (writeAt [] rest w))

/-- Reference mutation: check the intermediate segments, then compute
the new final value from the current one (`none` = failure) and write
it. -/
def refWalk (final : Option Value → Option Value) (e : Bool)
    (m : Dict) (p : List String) : Bool × Dict :=
  match p with
  | [] => (e, m)
  | _ =>
    if pathClear m p then
      match final (getPathM m p) with
      | some w => (true, writeAt m p w)
      | none => (false, m)
    else (false, m)

/-- Modelled from the spec: plain-map `set`. -/
def refSet (m : Dict) (p : List String) (v : Value) : Bool × Dict :=
  refWalk (fun _ => some v) true m p

/-- Modelled from the spec: plain-map `append`. -/
def refAppend (m : Dict) (p : List String) (v : Value) : Bool × Dict :=
  refWalk (fun cur =>
    match cur with
    | none => some (.arr [v])
    | some (.arr xs) => some (.arr (xs ++ [v]))
    | some _ => none) false m p

/-- Modelled from the spec: plain-map `extend`. -/
def refExtend (m : Dict) (p : List String) (vs : List Value) : Bool × Dict :=
  refWalk (fun cur =>
    match cur with
    | none => some (.arr vs)
    | some (.arr xs) => some (.arr (xs ++ vs))
    | some _ => none) false m p

/-- Remove a key from the dictionary at a path of dictionaries. -/
def delAt : Dict → List String → String → Dict
  | m, [], k => dictDel m k
  | m, k' :: rest, k =>
    match dictGet m k' with
    | some (.map m') => dictSet m k' (.map (delAt m' rest k))
    | _ => m

/-- Modelled from the spec: plain-map `delete` — removes only the final
segment, no-op (false) when the path or its parent is absent; never
raises. -/
def refDelete (m : Dict) (p : List String) : Bool × Dict :=
  match splitLast p with
  | none => (false, m)
  | some (par, k) =>
    match getPathM m par with
    | some (.map pm) =>
      if (dictGet pm k).isSome then (true, delAt m par k) else (false, m)
    | _ => (false, m)

/-- The mutations applied over a run of operations. -/
inductive DocOp where
  | setOp (p : List String) (v : Value) : DocOp
  | appendOp (p : List String) (v : Value) : DocOp
  | extendOp (p : List String) (vs : List Value) : DocOp
  | deleteOp (p : List String) : DocOp

/-- Operations whose delete paths are non-empty (the class on which the
source cannot raise). -/
def delOk : DocOp → Bool
  | .deleteOp p => !p.isEmpty
  | _ => true

/-- Run a sequence of operations through the source's payload methods,
propagating the `ValueError` that `delete` raises on an empty path. -/
def runPy : Dict → List DocOp → Except String Dict
  | m, [] => .ok m
  | m, op :: t =>
    match op with
    | .setOp p v => runPy (pSet m p v).2 t
    | .appendOp p v => runPy (pAppend m p v).2 t
    | .extendOp p vs => runPy (pExtend m p vs).2 t
    | .deleteOp p =>
      match pDelete m p with
      | .ok r => runPy r.2 t
      | .error e => .error e

/-- Run the same sequence through the reference plain-map operations. -/
def runRef : Dict → List DocOp → Dict
  | m, [] => m
  | m, op :: t =>
    match op with
    | .setOp p v => runRef (refSet m p v).2 t
    | .appendOp p v => runRef (refAppend m p v).2 t
    | .extendOp p vs => runRef (refExtend m p vs).2 t
    | .deleteOp p => runRef (refDelete m p).2 t

/-! ### The transport merge (`kusanagi/sdk/lib/payload/utils.py`)

`merge_dictionary(src, dest)` iterates the entries of `src` in order:
a key missing from `dest` is deep-copied in; a key present in both with
dictionary source value is merged recursively; a key present in both
where both values are lists is concatenated (destination first); any
other key present in both is skipped, keeping the destination value.
In the pure model a deep copy is the value itself (sharing is not
observable).  The function is written for dictionary destinations but is
not guarded: on a non-dictionary destination with a non-empty source the
Python `in`, indexing and assignment operators raise `TypeError` (lists
and strings support `in`, so a string-membership test happens first on
those), which the model mirrors with `Except.error`. -/

mutual

def mergeDict (src : List (String × Value)) (dest : Value) :
    Except String Value :=
  match src with
  | [] => .ok dest
  | (k, v) :: rest =>
    match mergeEntry k v dest with
    | .ok dest₁ => mergeDict rest dest₁
    | .error e => .error e

def mergeEntry (k : String) (v : Value) (dest : Value) : Except String Value :=
  match dest with
  | .map dm =>
    match dictGet dm k with
    | none => .ok (.map (dictSet dm k v))
    | some cur =>
      match v with
      | .map sm =>
        match mergeDict sm cur with
        | .ok merged => .ok (.map (dictSet dm k merged))
        | .error e => .error e
      | .arr sl =>
        match cur with
        | .arr dl => .ok (.map (dictSet dm k (.arr (dl ++ sl))))
        | _ => .ok (.map dm)
      | _ => .ok (.map dm)
  | .arr xs =>
    if xs.any (fun x => match x with | .str s => s = k | _ => false) then
      match v with
      | .map _ => .error "TypeError: list indices must be integers or slices"
      | .arr _ => .error "TypeError: list indices must be integers or slices"
      | _ => .ok dest
    else .error "TypeError: list indices must be integers or slices"
  | .str s =>
    if s.data.tails.any (fun t => k.data.isPrefixOf t) then
      match v with
      | .map _ => .error "TypeError: string indices must be integers"
      | .arr _ => .error "TypeError: string indices must be integers"
      | _ => .ok dest
    else .error "TypeError: str object does not support item assignment"
  | .timeofday _ _ _ => .error "TypeError: struct_time does not support item assignment"
  | _ => .error "TypeError: argument is not a container"

end

/-- `merge_dictionary` as invoked on an arbitrary source value (the
`src.items()` call raises `AttributeError` on a non-dictionary). -/
def mergeTop (src dest : Value) : Except String Value :=
  match src with
  | .map sm => mergeDict sm dest
  | _ => .error "AttributeError: object has no attribute items"

/-! ### Payload namespace constants

The repository imports its payload key constants from
`kusanagi.sdk.lib.payload.ns`; that module is not part of the sources
here, so the constants are taken from the specification's description of
the payload sections.  Every proof below depends only on each constant
being one fixed string. -/

/-- Modelled from the spec: the `meta` transport section key. -/
def nsMeta : String := "meta"

/-- Modelled from the spec: the `data` transport section key. -/
def nsData : String := "data"

/-- Modelled from the spec: the `relations` transport section key. -/
def nsRelations : String := "relations"

/-- Modelled from the spec: the `links` transport section key. -/
def nsLinks : String := "links"

/-- Modelled from the spec: the `calls` transport section key. -/
def nsCalls : String := "calls"

/-- Modelled from the spec: the `transactions` transport section key. -/
def nsTransactions : String := "transactions"

/-- Modelled from the spec: the `errors` transport section key. -/
def nsErrors : String := "errors"

/-- Modelled from the spec: the `files` transport section key. -/
def nsFiles : String := "files"

/-- Modelled from the spec: the `body` (download) transport section key. -/
def nsBody : String := "body"

/-- Modelled from the spec: the `fallbacks` key under `meta`. -/
def nsFallbacks : String := "fallbacks"

/-- Modelled from the spec: the `properties` key under `meta`. -/
def nsProperties : String := "properties"

/-- Modelled from the spec: the `transport` sub-path key of a reply. -/
def nsTransport : String := "transport"

/-- Modelled from the spec: the per-call `duration` field key. -/
def nsDuration : String := "duration"

/-- Modelled from the spec: the outer command-reply key of a reply
payload (first element of `ReplyPayload.path_prefix`). -/
def nsCommandReply : String := "command_reply"

/-- Modelled from the spec: the result key of a reply payload (second
element of `ReplyPayload.path_prefix`). -/
def nsResult : String := "result"

/-! ### The reply-bound transport (`kusanagi/sdk/lib/payload/transport.py`)

A `TransportPayload` has no `path_prefix` of its own, so its inherited
`Payload` operations ignore the `prefix` flag; a bound `ReplyPayload`
has `path_prefix = [ns.COMMAND_REPLY, ns.RESULT]`, so a mirrored
operation on the reply runs on `path_prefix + [ns.TRANSPORT] + path`
when the flag is on and on `[ns.TRANSPORT] + path` when it is off.
The pair of the transport's own dictionary and the optionally bound
reply dictionary is the state the mirrored mutators act on. -/

/-- `ReplyPayload.path_prefix`. -/
def replyBase : List String := [nsCommandReply, nsResult]

/-- The effective path of a reply operation: the reply's `path_prefix`
is a non-empty list, hence truthy, so it is prepended exactly when the
`prefix` flag is on. -/
def replyEffPath (pflag : Bool) (path : List String) : List String :=
  if pflag then replyBase ++ path else path

/-- The reply path addressing the transport sub-tree. -/
def replyTransportPath : List String := replyBase ++ [nsTransport]

/-- A transport payload together with its optionally bound reply
(`TransportPayload.__init__` sets `self._reply = None`;
`set_reply` binds one). -/
structure TransportState where
  doc : Dict
  reply : Option Dict
deriving Repr

/-- `TransportPayload.set`: run the inherited `Payload.set` on the
transport's own dictionary, then mirror it on the bound reply under the
`[ns.TRANSPORT] + path` sub-path (prefixed when the flag is on), and
return the first operation's flag. -/
def tSet (st : TransportState) (path : List String) (v : Value)
    (pflag : Bool) : Bool × TransportState :=
  let r := pSet st.doc path v
  (r.1, ⟨r.2,
    match st.reply with
    | none => none
    | some rd => some (pSet rd (replyEffPath pflag (nsTransport :: path)) v).2⟩)

/-- `TransportPayload.append`: as `tSet`, with `Payload.append`. -/
def tAppend (st : TransportState) (path : List String) (v : Value)
    (pflag : Bool) : Bool × TransportState :=
  let r := pAppend st.doc path v
  (r.1, ⟨r.2,
    match st.reply with
    | none => none
    | some rd => some (pAppend rd (replyEffPath pflag (nsTransport :: path)) v).2⟩)

/-- `TransportPayload.extend`: as `tSet`, with `Payload.extend`. -/
def tExtend (st : TransportState) (path : List String) (vs : List Value)
    (pflag : Bool) : Bool × TransportState :=
  let r := pExtend st.doc path vs
  (r.1, ⟨r.2,
    match st.reply with
    | none => none
    | some rd => some (pExtend rd (replyEffPath pflag (nsTransport :: path)) vs).2⟩)

/-- `TransportPayload.delete`: `super().delete(path)` runs first, so its
`ValueError` on an empty path propagates before the reply is touched;
the mirrored reply path `[ns.TRANSPORT] + path` is never empty, so the
reply-side `ValueError` branch is unreachable (kept to make the model a
total function). -/
def tDelete (st : TransportState) (path : List String) (pflag : Bool) :
    Except String (Bool × TransportState) :=
  match pDelete st.doc path with
  | .error e => .error e
  | .ok r =>
    .ok (r.1, ⟨r.2,
      match st.reply with
      | none => none
      | some rd =>
        match pDelete rd (replyEffPath pflag (nsTransport :: path)) with
        | .ok r₂ => some r₂.2
        | .error _ => some rd⟩)

/-- `Payload.get(path)` with the default `None`: the traversal result,
where a stored `None` is indistinguishable from a missing path (the
source compares the returned value with `is None`). -/
def pyGetOpt (m : Dict) (path : List String) : Option Value :=
  match getPathM m path with
  | some .null => none
  | some v => some v
  | none => none

/-- Replace the value found at a dictionary-traversable path (Python's
in-place mutation of the object obtained by the traversal; the
fall-through cases are unreachable when the path was traversable). -/
def updValAt : Dict → List String → Value → Dict
  | m, [], _ => m
  | m, [k], v => dictSet m k v
  | m, k :: k₂ :: rest, v =>
    match dictGet m k with
    | some (.map m') => dictSet m k (.map (updValAt m' (k₂ :: rest) v))
    | _ => m

/-- `TransportPayload.MERGEABLE_PATHS`. -/
def MERGEABLE_PATHS : List (List String) :=
  [[nsData], [nsRelations], [nsLinks], [nsCalls], [nsTransactions],
   [nsErrors], [nsBody], [nsFiles], [nsMeta, nsFallbacks],
   [nsMeta, nsProperties]]

/-- One iteration of the `MERGEABLE_PATHS` loop of
`TransportPayload.merge_runtime_call_transport`: skip when the source
lacks the path; otherwise initialise a missing destination with an
empty dictionary through the raw `super().set` (no reply mirroring; on
a silent `set` failure the fresh dictionary is unreachable from the
payload and the merge result is discarded), and merge the source value
into the destination value in place. -/
def mergePathStep (src doc : Dict) (path : List String) :
    Except String Dict :=
  match pyGetOpt src path with
  | none => .ok doc
  | some sv =>
    match pyGetOpt doc path with
    | some dv =>
      match mergeTop sv dv with
      | .ok merged => .ok (updValAt doc path merged)
      | .error e => .error e
    | none =>
      let r := pSet doc path (.map [])
      match mergeTop sv (.map []) with
      | .ok merged => if r.1 then .ok (updValAt r.2 path merged) else .ok r.2
      | .error e => .error e

/-- The `MERGEABLE_PATHS` loop. -/
def mergePaths (src : Dict) : Dict → List (List String) → Except String Dict
  | doc, [] => .ok doc
  | doc, p :: rest =>
    match mergePathStep src doc p with
    | .ok doc' => mergePaths src doc' rest
    | .error e => .error e

/-- `TransportPayload.merge_runtime_call_transport` on a transport-typed
argument (the `isinstance` guard raises `TypeError` on anything else):
merge every mergeable path of the source transport into the current
transport, then replace the bound reply's whole transport sub-tree with
a deep copy of the merged transport (`deepcopy` is the identity in the
pure value model), and return `True`.  A `TypeError` raised by
`merge_dictionary` mid-loop is modelled as an error result that
discards the partially merged state. -/
def tMerge (st : TransportState) (src : Dict) :
    Except String (Bool × TransportState) :=
  match mergePaths src st.doc MERGEABLE_PATHS with
  | .error e => .error e
  | .ok doc' =>
    .ok (true, ⟨doc',
      match st.reply with
      | none => none
      | some rd => some (pSet rd (replyEffPath true [nsTransport]) (.map doc')).2⟩)

/-- The bound-reply consistency relation of claim C8: when a reply is
bound, its transport sub-tree equals the transport's own dictionary. -/
def boundConsistent : TransportState → Prop
  | ⟨_, none⟩ => True
  | ⟨doc, some rd⟩ => getPathM rd replyTransportPath = some (.map doc)

/-- A consistent bound transport used to witness claim C8. -/
def c8StW : TransportState :=
  ⟨[("x", Value.int 5)],
   some [(nsCommandReply, Value.map [(nsResult,
     Value.map [(nsTransport, Value.map [("x", Value.int 5)])])])]⟩

/-- An empty consistent bound transport used to witness claim C8. -/
def c8StEmpty : TransportState :=
  ⟨[], some [(nsCommandReply, Value.map [(nsResult,
     Value.map [(nsTransport, Value.map [])])])]⟩

/-- A source transport dictionary used to witness claim C8. -/
def c8Src : Dict := [(nsData, Value.map [("k", Value.int 1)])]

/-- The merged transport dictionary of the C8 witness. -/
def c8DocM : Dict := [(nsData, Value.map [("k", Value.int 1)])]

/-- The post-merge state of the C8 witness. -/
def c8StMrg : TransportState :=
  ⟨c8DocM, some [(nsCommandReply, Value.map [(nsResult,
     Value.map [(nsTransport, Value.map c8DocM)])])]⟩

/-! ### Server response flags (`kusanagi/sdk/lib/server.py`)

The response meta frame of a multipart reply is a byte string built by
concatenation (`flags += SERVICE_CALL` and so on); bytes are modelled
as lists of naturals. -/

/-- `EMPTY_META = b'\x00'`. -/
def EMPTY_META : List Nat := [0]

/-- `SERVICE_CALL = b'\x01'`. -/
def SERVICE_CALL : List Nat := [1]

/-- `FILES = b'\x02'`. -/
def FILES : List Nat := [2]

/-- `TRANSACTIONS = b'\x03'`. -/
def TRANSACTIONS : List Nat := [3]

/-- `DOWNLOAD = b'\x04'`. -/
def DOWNLOAD : List Nat := [4]

/-- Python truthiness of a payload value (`if data:`).  A canonical
plain decimal is truthy exactly when it has a non-zero digit; date,
datetime and time values are always truthy. -/
def pyTruthy : Value → Bool
  | .null => false
  | .bool b => b
  | .int n => n != 0
  | .float bits => !(bits == 0 || bits == 9223372036854775808)
  | .str s => !s.isEmpty
  | .bin bs => !bs.isEmpty
  | .arr xs => !xs.isEmpty
  | .map m => !m.isEmpty
  | .decimal s => s.data.any (fun c => decide ('1' ≤ c) && decide (c ≤ '9'))
  | .date _ _ _ => true
  | .datetime _ _ _ _ _ _ _ => true
  | .timeofday _ _ _ => true

/-- One call record check of `TransportPayload.has_calls`:
`call.get(ns.DURATION) is None` — the call was not executed yet.  Call
records are dictionaries (the shape `add_call`/`add_remote_call`
write); on any other value the Python attribute lookup would raise. -/
def callPending (c : Value) : Bool :=
  match c with
  | .map cm =>
    match dictGet cm nsDuration with
    | none => true
    | some .null => true
    | some _ => false
  | _ => false

/-- `TransportPayload.has_calls`: some call registered for the service
and version has no duration yet.  The collection at
`[ns.CALLS, service, version]` is a list (the shape `append` writes);
the default for a missing path is the empty list. -/
def has_calls (t : Dict) (service version : String) : Bool :=
  match getPathM t [nsCalls, service, version] with
  | some (.arr xs) => xs.any callPending
  | _ => false

/-- `TransportPayload.has_files`. -/
def has_files (t : Dict) : Bool := pExists t [nsFiles]

/-- `TransportPayload.has_transactions`. -/
def has_transactions (t : Dict) : Bool := pExists t [nsTransactions]

/-- `TransportPayload.has_download`. -/
def has_download (t : Dict) : Bool := pExists t [nsBody]

/-- `ReplyPayload.get_transport`: read the prefixed `[ns.TRANSPORT]`
path and return `None` for falsy data (missing transport or empty
dictionary), the transport dictionary otherwise.  A truthy non-dict
value would make the `TransportPayload` constructor raise; no reply the
server builds holds one. -/
def get_transport (rd : Dict) : Except String (Option Dict) :=
  match getPathM rd (replyBase ++ [nsTransport]) with
  | none => .ok none
  | some v =>
    if pyTruthy v then
      match v with
      | .map m => .ok (some m)
      | _ => .error "TypeError: transport data is not a dictionary"
    else .ok none

/-- The flags computation of `Server.__process_response` for an
`Action` result: `EMPTY_META` when the reply holds no transport;
otherwise the concatenation of the flag bytes for pending calls,
files, transactions and download, with `EMPTY_META` replacing an empty
concatenation. -/
def processResponseFlags (rd : Dict) (service version : String) :
    Except String (List Nat) :=
  match get_transport rd with
  | .error e => .error e
  | .ok none => .ok EMPTY_META
  | .ok (some t) =>
    let f := (if has_calls t service version then SERVICE_CALL else [])
          ++ (if has_files t then FILES else [])
          ++ (if has_transactions t then TRANSACTIONS else [])
          ++ (if has_download t then DOWNLOAD else [])
    .ok (if f.isEmpty then EMPTY_META else f)

/-! ### Server dispatch (`kusanagi/sdk/lib/server.py`) -/

/-- Modelled from the spec: the `error` section key of an error
payload (`ErrorPayload.path_prefix`). -/
def nsError : String := "error"

/-- Modelled from the spec: the error `message` key. -/
def nsMessage : String := "message"

/-- Modelled from the spec: the error `code` key. -/
def nsCode : String := "code"

/-- Modelled from the spec: the error `status` key. -/
def nsStatus : String := "status"

/-- Modelled from the spec: the reply key holding a call's return
value. -/
def nsReturn : String := "return"

/-- `State.get_component_title`: `'"{name}" ({version})'`. -/
def getComponentTitle (name version : String) : String :=
  "\"" ++ name ++ "\" (" ++ version ++ ")"

/-- `ErrorPayload.new(message=msg)` with the default code `0` and
status `'500 Internal Server Error'`. -/
def errorPayloadNew (msg : String) : Dict :=
  [(nsError, Value.map [(nsMessage, Value.str msg), (nsCode, Value.int 0),
    (nsStatus, Value.str "500 Internal Server Error")])]

/-- `create_error_stream`: the multipart frames before byte encoding —
the request id, the `EMPTY_META` flags frame and the error payload
(`pack` and `str.encode` are injective byte encodings the model keeps
decoded). -/
def createErrorStream (rid msg : String) : String × List Nat × Dict :=
  (rid, EMPTY_META, errorPayloadNew msg)

/-- `Server.__process_request` after the out-of-band schema update:
when the action has no registered callback, return the invalid-action
error stream at once; otherwise hand over to the callback machinery
(`__process_action`), abstracted as `runAction` returning the number of
event-loop suspensions it consumed together with its reply stream.
The unknown-action branch reaches no suspension point, so it consumes
zero. -/
def processRequest (registered : List String) (name version rid action : String)
    (runAction : String → Nat × (String × List Nat × Dict)) :
    Nat × (String × List Nat × Dict) :=
  if action ∈ registered then runAction action
  else (0, createErrorStream rid ("Invalid action for component " ++
    getComponentTitle name version ++ ": \"" ++ action ++ "\""))

/-- The timed-out message of `Server.__handle_request` for an integral
millisecond budget (`f'{timeout_ms}ms'` renders the float budget with
one fractional digit). -/
def timeoutMessage (timeout : Nat) : String :=
  "Execution timed out after " ++ String.mk (natChars timeout) ++ ".0ms"

/-- `Server.__handle_request`: run the dispatch under
`asyncio.wait_for`; the request times out when the suspensions it
consumes exceed the configured budget, otherwise its stream is
returned unchanged. -/
def handleRequest (registered : List String) (name version rid action : String)
    (runAction : String → Nat × (String × List Nat × Dict))
    (timeout : Nat) : String × List Nat × Dict :=
  let r := processRequest registered name version rid action runAction
  if timeout < r.1 then createErrorStream rid (timeoutMessage timeout)
  else r.2

/-! ### The run-time call client (`kusanagi/sdk/lib/call.py`)

`AsyncClient.call` sends one framed command and polls the socket once
with the configured millisecond timeout.  The socket is modelled by
the list of events successive polls would observe: the call consumes
only the head.  `pollIn none` stands for a reply whose bytes do not
unpack. -/

/-- One socket poll observation. -/
inductive PollEvent where
  | pollIn (stream : Option Wire)
  | noEvent
deriving Repr

/-- `ErrorPayload.get_message()` on a decoded payload: the value at the
prefixed `[ns.MESSAGE]` path, with the default `'Unknown error'`. -/
def errorGetMessage (pm : Dict) : Value :=
  (getPathM pm [nsError, nsMessage]).getD (.str "Unknown error")

/-- `CallError.__init__`: prepend `'Run-time call failed: '` to the
message.  String messages (every message the client itself raises)
format as themselves; a non-string remote message goes through Python
`str()`, approximated by the value's representation. -/
def callFailed (v : Value) : String :=
  match v with
  | .str s => "Run-time call failed: " ++ s
  | v => "Run-time call failed: " ++ reprStr v

/-- `ReplyPayload.get_return_value()`: the value at the prefixed
`[ns.RETURN]` path (`None` when absent). -/
def replyGetReturn (pm : Dict) : Value :=
  (getPathM pm (replyBase ++ [nsReturn])).getD .null

/-- `AsyncClient.call` over a socket event trace: no transport raises
`ValueError`; a poll without an event raises `CallError('Timeout')`; a
reply that does not unpack raises
`CallError('The response format is invalid')`; a non-dictionary
payload raises `CallError('The payload data is not valid')`; a payload
with an `error` section raises a `CallError` with the remote message;
otherwise the return value and transport are extracted.  Exactly one
event is consumed — there is no retry loop. -/
def clientCall (transport : Option Dict) (trace : List PollEvent) :
    Except String (Value × Option Dict) :=
  match transport with
  | none => .error "ValueError: Transport is required to make run-time calls"
  | some _ =>
    match trace with
    | [] => .error (callFailed (.str "Timeout"))
    | .noEvent :: _ => .error (callFailed (.str "Timeout"))
    | .pollIn none :: _ =>
      .error (callFailed (.str "The response format is invalid"))
    | .pollIn (some w) :: _ =>
      match pyUnpack w with
      | .map pm =>
        if (dictGet pm nsError).isSome then
          .error (callFailed (errorGetMessage pm))
        else
          match get_transport pm with
          | .error e => .error e
          | .ok ot => .ok (replyGetReturn pm, ot)
      | _ => .error (callFailed (.str "The payload data is not valid"))

/-- A reply whose transport holds one pending call, for the C3
witness. -/
def c3ReplyCall : Dict :=
  [(nsCommandReply, Value.map [(nsResult, Value.map [(nsTransport,
     Value.map [(nsCalls, Value.map [("users", Value.map [("1.0",
       Value.arr [Value.map [("name", Value.str "posts")]])])])])])])]

/-- A reply whose transport holds only metadata, for the C3 witness. -/
def c3ReplyQuiet : Dict :=
  [(nsCommandReply, Value.map [(nsResult, Value.map [(nsTransport,
     Value.map [(nsMeta, Value.str "m")])])])]

/-! ## Theorems: properties of the embedded definitions -/

theorem dictGet_dictSet_self (m : Dict) (k : String) (v : Value) :
    dictGet (dictSet m k v) k = some v := by
  induction m with
  | nil => simp [dictGet, dictSet]
  | cons h t ih =>
    obtain ⟨k', v'⟩ := h
    by_cases hk : k' = k
    · simp [dictGet, dictSet, hk]
    · simp [dictGet, dictSet, hk, ih]

theorem dictGet_dictSet_ne (m : Dict) (k k' : String) (v : Value) (h : k ≠ k') :
    dictGet (dictSet m k v) k' = dictGet m k' := by
  induction m with
  | nil => simp [dictGet, dictSet, h]
  | cons hd t ih =>
    obtain ⟨k₀, v₀⟩ := hd
    by_cases hk : k₀ = k
    · subst hk
      simp [dictGet, dictSet, h]
    · simp only [dictSet, if_neg hk]
      by_cases hk' : k₀ = k'
      · simp [dictGet, hk']
      · simp [dictGet, hk', ih]

/-- Replacing a key by the value it already holds leaves the dictionary
unchanged. -/
theorem dictSet_self (m : Dict) (k : String) (v : Value)
    (h : dictGet m k = some v) : dictSet m k v = m := by
  induction m with
  | nil => simp [dictGet] at h
  | cons hd t ih =>
    obtain ⟨k₀, v₀⟩ := hd
    by_cases hk : k₀ = k
    · subst hk
      simp [dictGet] at h
      simp [dictSet, h]
    · simp [dictGet, hk] at h
      simp [dictSet, hk, ih h]

/-- Structural induction principle for `Value`, with elementwise
hypotheses for the two container constructors. -/
theorem value_induction (P : Value → Prop)
    (hnull : P .null)
    (hbool : ∀ b, P (.bool b))
    (hint : ∀ n, P (.int n))
    (hfloat : ∀ b, P (.float b))
    (hstr : ∀ s, P (.str s))
    (hbin : ∀ bs, P (.bin bs))
    (harr : ∀ xs, (∀ x ∈ xs, P x) → P (.arr xs))
    (hmap : ∀ m, (∀ p ∈ m, P (Prod.snd p)) → P (.map m))
    (hdec : ∀ s, P (.decimal s))
    (hdate : ∀ y m d, P (.date y m d))
    (hdt : ∀ y mo d h mi s us, P (.datetime y mo d h mi s us))
    (htod : ∀ h mi s, P (.timeofday h mi s)) :
    ∀ v, P v :=
  fun v =>
    @Value.rec P (fun xs => ∀ x ∈ xs, P x) (fun m => ∀ p ∈ m, P p.2)
      (fun p => P p.2)
      hnull hbool hint hfloat hstr hbin harr hmap hdec hdate hdt htod
      (by intro x hx; cases hx)
      (fun hd tl h1 h2 => by
        intro x hx
        rcases List.mem_cons.mp hx with h | h
        · exact h ▸ h1
        · exact h2 x h)
      (by intro p hp; cases hp)
      (fun hd tl h4 h3 => by
        intro p hp
        rcases List.mem_cons.mp hp with h | h
        · exact h ▸ h4
        · exact h3 p h)
      (fun k w hw => hw)
      v

theorem charDigit_digitChar (d : Nat) (h : d < 10) :
    charDigit (digitChar d) = d := by
  interval_cases d <;> rfl

theorem isDigit_digitChar (d : Nat) (h : d < 10) :
    (digitChar d).isDigit = true := by
  interval_cases d <;> rfl

theorem digitsVal_aux (l : List Nat) (a : Nat) :
    l.foldl (fun a d => 10 * a + d) a = a * 10 ^ l.length + digitsVal l := by
  induction l generalizing a with
  | nil => simp [digitsVal]
  | cons d t ih =>
    simp only [List.foldl_cons, List.length_cons, digitsVal]
    rw [ih (10 * a + d), ih (10 * 0 + d)]
    ring

theorem digitsVal_reverse (l : List Nat) :
    digitsVal l.reverse = Nat.ofDigits 10 l := by
  induction l with
  | nil => simp [digitsVal]
  | cons d t ih =>
    rw [List.reverse_cons]
    have hstep : digitsVal (t.reverse ++ [d]) = 10 * digitsVal t.reverse + d := by
      simp [digitsVal, List.foldl_append]
    rw [hstep, ih, Nat.ofDigits_cons]
    ring

theorem digitsVal_replicate_zero (j : Nat) (l : List Nat) :
    digitsVal (List.replicate j 0 ++ l) = digitsVal l := by
  induction j with
  | zero => simp
  | succ k ih => simpa [digitsVal, List.replicate_succ] using ih

theorem map_charDigit_digitChar (l : List Nat) (hl : ∀ d ∈ l, d < 10) :
    l.map (fun d => charDigit (digitChar d)) = l := by
  induction l with
  | nil => rfl
  | cons d t ih =>
    rw [List.map_cons, charDigit_digitChar d (hl d (by simp)),
      ih (fun x hx => hl x (by simp [hx]))]

theorem natChars_ne_nil (n : Nat) : natChars n ≠ [] := by
  unfold natChars
  by_cases h : n = 0
  · simp [h]
  · simp only [h, if_false, ne_eq, List.reverse_eq_nil_iff]
    simpa using Nat.digits_ne_nil_iff_ne_zero.mpr h

theorem natChars_all_digits (n : Nat) : (natChars n).all Char.isDigit = true := by
  unfold natChars
  by_cases h : n = 0
  · simp [h]
  · simp only [h, if_false, List.all_eq_true, List.mem_reverse, List.mem_map]
    rintro c ⟨d, hd, rfl⟩
    exact isDigit_digitChar d (Nat.digits_lt_base (by norm_num) hd)

theorem parseNat_natChars (n : Nat) : parseNat (natChars n) = some n := by
  unfold parseNat
  rw [if_pos ⟨natChars_ne_nil n, natChars_all_digits n⟩]
  congr 1
  by_cases h : n = 0
  · subst h; rfl
  · unfold natChars
    simp only [h, if_false, List.map_reverse, List.map_map]
    have hmap : (Nat.digits 10 n).map (charDigit ∘ digitChar) = Nat.digits 10 n := by
      have := map_charDigit_digitChar (Nat.digits 10 n)
        (fun d hd => Nat.digits_lt_base (by norm_num) hd)
      simpa [Function.comp] using this
    rw [hmap, digitsVal_reverse, Nat.ofDigits_digits]

theorem parseNat_padChars (k n : Nat) : parseNat (padChars k n) = some n := by
  have hall : (padChars k n).all Char.isDigit = true := by
    unfold padChars
    rw [List.all_append]
    have h1 : (List.replicate (k - (natChars n).length) '0').all Char.isDigit = true := by
      rw [List.all_eq_true]
      intro c hc
      rw [List.eq_of_mem_replicate hc]
      decide
    rw [h1, natChars_all_digits n]
    rfl
  have hne : padChars k n ≠ [] := by
    unfold padChars
    intro hc
    exact natChars_ne_nil n (List.append_eq_nil.mp hc).2
  unfold parseNat
  rw [if_pos ⟨hne, hall⟩]
  have hmapz : (List.replicate (k - (natChars n).length) '0').map charDigit =
      List.replicate (k - (natChars n).length) 0 := by
    rw [List.map_replicate]
    rfl
  unfold padChars
  rw [List.map_append, hmapz, digitsVal_replicate_zero]
  have := parseNat_natChars n
  unfold parseNat at this
  rw [if_pos ⟨natChars_ne_nil n, natChars_all_digits n⟩] at this
  simpa using this

theorem natChars_length_le (k n : Nat) (hk : 0 < k) (h : n < 10 ^ k) :
    (natChars n).length ≤ k := by
  unfold natChars
  by_cases h0 : n = 0
  · simpa [h0] using hk
  · simp only [h0, if_false, List.length_reverse, List.length_map]
    rw [Nat.digits_len 10 n (by norm_num) h0]
    have := (Nat.lt_pow_iff_log_lt (b := 10) (by norm_num) h0).mp h
    omega

theorem padChars_length (k n : Nat) (hk : 0 < k) (h : n < 10 ^ k) :
    (padChars k n).length = k := by
  unfold padChars
  have := natChars_length_le k n hk h
  simp only [List.length_append, List.length_replicate]
  omega

theorem splitCh_ne_nil (c : Char) (l : List Char) : splitCh c l ≠ [] := by
  cases l with
  | nil => simp [splitCh]
  | cons a t =>
    simp only [splitCh]
    by_cases h : a = c <;> simp [h]

theorem joinCh_cons_cons (c : Char) (p q : List Char) (ps : List (List Char)) :
    joinCh c (p :: q :: ps) = p ++ c :: joinCh c (q :: ps) := rfl

/-- Joining the split parts always recovers the original string
(Python: `sep.join(s.split(sep)) == s`). -/
theorem joinCh_splitCh (c : Char) (l : List Char) :
    joinCh c (splitCh c l) = l := by
  induction l with
  | nil => rfl
  | cons a t ih =>
    simp only [splitCh]
    rcases hr : splitCh c t with _ | ⟨p, ps⟩
    · exact absurd hr (splitCh_ne_nil c t)
    · rw [hr] at ih
      by_cases h : a = c
      · rw [if_pos h, joinCh_cons_cons, ih, h]
        rfl
      · rw [if_neg h]
        simp only [List.headD_cons, List.tail_cons]
        cases ps with
        | nil =>
          simp only [joinCh] at ih ⊢
          rw [ih]
        | cons q qs =>
          rw [joinCh_cons_cons] at ih ⊢
          simp only [List.cons_append]
          rw [ih]

/-- Splitting a string that does not contain the separator. -/
theorem splitCh_no_sep (c : Char) (p : List Char) (h : c ∉ p) :
    splitCh c p = [p] := by
  induction p with
  | nil => rfl
  | cons a t ih =>
    simp only [List.mem_cons, not_or] at h
    have ha : ¬(a = c) := fun hc => h.1 hc.symm
    simp only [splitCh, ih h.2, if_neg ha, List.headD_cons, List.tail_cons]

/-- Splitting peels off a separator-free first part. -/
theorem splitCh_append_sep (c : Char) (p rest : List Char) (h : c ∉ p) :
    splitCh c (p ++ c :: rest) = p :: splitCh c rest := by
  induction p with
  | nil =>
    simp [splitCh]
  | cons a t ih =>
    simp only [List.mem_cons, not_or] at h
    have ha : ¬(a = c) := fun hc => h.1 hc.symm
    simp only [List.cons_append, splitCh, List.append_eq, ih h.2, if_neg ha,
      List.headD_cons, List.tail_cons]

theorem not_mem_of_all_digits (c : Char) (l : List Char)
    (hl : l.all Char.isDigit = true) (hc : c.isDigit = false) : c ∉ l := by
  intro hmem
  rw [List.all_eq_true] at hl
  rw [hl c hmem] at hc
  cases hc

theorem not_mem_natChars (c : Char) (n : Nat) (hc : c.isDigit = false) :
    c ∉ natChars n :=
  not_mem_of_all_digits c (natChars n) (natChars_all_digits n) hc

theorem padChars_all_digits (k n : Nat) : (padChars k n).all Char.isDigit = true := by
  unfold padChars
  rw [List.all_append]
  have h1 : (List.replicate (k - (natChars n).length) '0').all Char.isDigit = true := by
    rw [List.all_eq_true]
    intro c hc
    rw [List.eq_of_mem_replicate hc]
    decide
  rw [h1, natChars_all_digits n]
  rfl

theorem not_mem_padChars (c : Char) (k n : Nat) (hc : c.isDigit = false) :
    c ∉ padChars k n :=
  not_mem_of_all_digits c (padChars k n) (padChars_all_digits k n) hc

theorem strToDate_dateToStr (y m d : Nat) (h : validDate y m d) :
    strToDate (dateToStr y m d) = some (y, m, d) := by
  obtain ⟨h1, h2, h3, h4, h5, h6⟩ := h
  have hy : ('-' : Char) ∉ natChars y := not_mem_natChars _ _ (by decide)
  have hm : ('-' : Char) ∉ padChars 2 m := not_mem_padChars _ _ _ (by decide)
  have hsplit : splitCh '-' (dateToStr y m d) = [natChars y, padChars 2 m, padChars 2 d] := by
    unfold dateToStr
    rw [splitCh_append_sep _ _ _ hy, splitCh_append_sep _ _ _ hm,
      splitCh_no_sep _ _ (not_mem_padChars _ _ _ (by decide))]
  unfold strToDate
  rw [hsplit]
  simp only [parseNat_natChars, parseNat_padChars, Option.bind_eq_bind,
    Option.some_bind]
  have hys : (natChars y).length ≤ 4 :=
    natChars_length_le 4 y (by norm_num) (by omega)
  have hms : (padChars 2 m).length ≤ 2 := by
    rw [padChars_length 2 m (by norm_num) (by omega)]
  have hds : (padChars 2 d).length ≤ 2 := by
    have hd31 : d ≤ 31 := by
      have : daysInMonth y m ≤ 31 := by
        unfold daysInMonth
        split <;> split <;> omega
      omega
    rw [padChars_length 2 d (by norm_num) (by omega)]
  rw [if_pos ⟨hys, hms, hds, h1, h2, h3, h4, h5, h6⟩]

theorem all_weaken (p q : Char → Bool) (h : ∀ c, p c = true → q c = true)
    (l : List Char) (hl : l.all p = true) : l.all q = true := by
  rw [List.all_eq_true] at hl ⊢
  exact fun c hc => h c (hl c hc)

theorem not_mem_of_all (p : Char → Bool) (l : List Char)
    (hl : l.all p = true) (c : Char) (hc : p c = false) : c ∉ l := by
  intro hmem
  rw [List.all_eq_true] at hl
  rw [hl c hmem] at hc
  cases hc

theorem isDigit_isDigitOr (extra : List Char) (c : Char)
    (h : c.isDigit = true) : isDigitOr extra c = true := by
  simp [isDigitOr, h]

theorem natChars_all_or (extra : List Char) (n : Nat) :
    (natChars n).all (isDigitOr extra) = true :=
  all_weaken _ _ (isDigit_isDigitOr extra) _ (natChars_all_digits n)

theorem padChars_all_or (extra : List Char) (k n : Nat) :
    (padChars k n).all (isDigitOr extra) = true :=
  all_weaken _ _ (isDigit_isDigitOr extra) _ (padChars_all_digits k n)

theorem dateToStr_all (y m d : Nat) (extra : List Char)
    (h : extra.contains '-' = true) :
    (dateToStr y m d).all (isDigitOr extra) = true := by
  unfold dateToStr
  simp only [List.all_append, List.all_cons, natChars_all_or, padChars_all_or,
    Bool.and_eq_true, isDigitOr, Bool.or_eq_true]
  simpa using h

theorem timeToStr_all (h mi s : Nat) (extra : List Char)
    (hc : extra.contains ':' = true) :
    (timeToStr h mi s).all (isDigitOr extra) = true := by
  unfold timeToStr
  simp only [List.all_append, List.all_cons, padChars_all_or,
    Bool.and_eq_true, isDigitOr, Bool.or_eq_true]
  simpa using hc

theorem strToDatetime_datetimeToStr (y mo d h mi s us : Nat)
    (hv : validDatetime y mo d h mi s us) :
    strToDatetime (datetimeToStr y mo d h mi s us) =
      some (y, mo, d, h, mi, s, us) := by
  obtain ⟨hd, hh, hmi, hs, hus⟩ := hv
  have hsplitT : splitCh 'T' (datetimeToStr y mo d h mi s us) =
      [dateToStr y mo d,
        timeToStr h mi s ++ '.' :: (padChars 6 us ++ ['+', '0', '0', ':', '0', '0'])] := by
    unfold datetimeToStr
    rw [splitCh_append_sep _ _ _
      (not_mem_of_all _ _ (dateToStr_all y mo d ['-'] (by decide)) 'T' (by decide))]
    rw [splitCh_no_sep]
    apply not_mem_of_all (isDigitOr [':', '.', '+'])
    · simp only [List.all_append, List.all_cons,
        timeToStr_all h mi s [':', '.', '+'] (by decide),
        padChars_all_or, Bool.and_eq_true]
      refine ⟨trivial, by decide, trivial, by decide⟩
    · decide
  have hplus : splitCh '+'
      (timeToStr h mi s ++ '.' :: (padChars 6 us ++ ['+', '0', '0', ':', '0', '0'])) =
      [timeToStr h mi s ++ '.' :: padChars 6 us, ['0', '0', ':', '0', '0']] := by
    rw [show timeToStr h mi s ++ '.' :: (padChars 6 us ++ ['+', '0', '0', ':', '0', '0']) =
      (timeToStr h mi s ++ '.' :: padChars 6 us) ++ '+' :: ['0', '0', ':', '0', '0'] by
        simp]
    rw [splitCh_append_sep]
    · rw [splitCh_no_sep _ _ (by decide)]
    · apply not_mem_of_all (isDigitOr [':', '.'])
      · simp only [List.all_append, List.all_cons,
          timeToStr_all h mi s [':', '.'] (by decide),
          padChars_all_or, Bool.and_eq_true]
        refine ⟨trivial, by decide, trivial⟩
      · decide
  have hcolon : splitCh ':' (timeToStr h mi s ++ '.' :: padChars 6 us) =
      [padChars 2 h, padChars 2 mi, padChars 2 s ++ '.' :: padChars 6 us] := by
    unfold timeToStr
    rw [show (padChars 2 h ++ ':' :: (padChars 2 mi ++ ':' :: padChars 2 s)) ++
        '.' :: padChars 6 us =
        padChars 2 h ++ ':' :: (padChars 2 mi ++ ':' ::
          (padChars 2 s ++ '.' :: padChars 6 us)) by simp]
    rw [splitCh_append_sep _ _ _ (not_mem_padChars _ _ _ (by decide)),
      splitCh_append_sep _ _ _ (not_mem_padChars _ _ _ (by decide))]
    rw [splitCh_no_sep]
    apply not_mem_of_all (isDigitOr ['.'])
    · simp only [List.all_append, List.all_cons, padChars_all_or, Bool.and_eq_true]
      refine ⟨trivial, by decide, trivial⟩
    · decide
  have hdot : splitCh '.' (padChars 2 s ++ '.' :: padChars 6 us) =
      [padChars 2 s, padChars 6 us] := by
    rw [splitCh_append_sep _ _ _ (not_mem_padChars _ _ _ (by decide)),
      splitCh_no_sep _ _ (not_mem_padChars _ _ _ (by decide))]
  have hlen2h : (padChars 2 h).length = 2 := padChars_length 2 h (by norm_num) (by omega)
  have hlen2mi : (padChars 2 mi).length = 2 := padChars_length 2 mi (by norm_num) (by omega)
  have hlen2s : (padChars 2 s).length = 2 := padChars_length 2 s (by norm_num) (by omega)
  have hlen6 : (padChars 6 us).length = 6 := padChars_length 6 us (by norm_num) (by omega)
  unfold strToDatetime
  rw [hsplitT]
  simp only [strToDate_dateToStr y mo d hd, Option.bind_eq_bind, Option.some_bind,
    hplus, hcolon, hdot, parseNat_padChars, ne_eq, not_true_eq_false,
    if_false, hlen2h, hlen2mi, hlen2s, hlen6]
  rw [if_pos ⟨by norm_num, by norm_num, by norm_num, by norm_num, hh, hmi, by omega⟩]
  norm_num

/-- `_decode` on a 3-element list with an unrecognized shape or type name
returns the list unchanged. -/
theorem listHook_of_not_ext (ys : List Value)
    (h : ∀ a t payload, ys = [.str a, .str t, payload] → a = "type" →
      t ≠ "decimal" ∧ t ≠ "datetime" ∧ t ≠ "date" ∧ t ≠ "time") :
    listHook ys = .arr ys := by
  unfold listHook
  rcases ys with _ | ⟨x, _ | ⟨y, _ | ⟨z, _ | ⟨w, t⟩⟩⟩⟩
  · rfl
  · rfl
  · rfl
  · cases x <;> try rfl
    case str a =>
    dsimp only
    by_cases ha : a = "type"
    · rw [if_pos ha]
      cases y <;> try rfl
      next ty =>
        obtain ⟨h1, h2, h3, h4⟩ := h a ty z rfl ha
        unfold decodeTyped
        simp [h1, h2, h3, h4]
    · rw [if_neg ha]
  · rfl

theorem roundSafeList_mem (xs : List Value) (h : roundSafeList xs = true)
    (x : Value) (hx : x ∈ xs) : roundSafe x = true := by
  induction xs with
  | nil => cases hx
  | cons a t ih =>
    rw [roundSafeList, Bool.and_eq_true] at h
    rcases List.mem_cons.mp hx with hh | hh
    · exact hh ▸ h.1
    · exact ih h.2 hh

theorem roundSafeDict_mem (m : List (String × Value)) (h : roundSafeDict m = true)
    (p : String × Value) (hp : p ∈ m) : roundSafe p.2 = true := by
  induction m with
  | nil => cases hp
  | cons a t ih =>
    obtain ⟨k, v⟩ := a
    rw [roundSafeDict, Bool.and_eq_true] at h
    rcases List.mem_cons.mp hp with hh | hh
    · rw [hh]
      exact h.1
    · exact ih h.2 hh

theorem extTag_false_cond (xs : List Value) (h : extTag xs = false) :
    ∀ a t payload, xs = [.str a, .str t, payload] → a = "type" →
      t ≠ "decimal" ∧ t ≠ "datetime" ∧ t ≠ "date" ∧ t ≠ "time" := by
  intro a t payload heq ha
  subst heq
  subst ha
  unfold extTag at h
  simp only [beq_iff_eq, Bool.and_eq_true, Bool.or_eq_true] at h
  simp only [Bool.and_eq_false_iff, Bool.or_eq_false_iff, beq_eq_false_iff_ne] at h
  rcases h with h | h
  · simp at h
  · exact ⟨h.1.1.1, h.1.1.2, h.1.2, h.2⟩

theorem packList_ok (xs : List Value)
    (h : ∀ x ∈ xs, ∃ w, pyPack x = .ok w ∧ pyUnpack w = x) :
    ∃ ws, pyPackList xs = .ok ws ∧ pyUnpackList ws = xs := by
  induction xs with
  | nil => exact ⟨[], rfl, rfl⟩
  | cons x t ih =>
    obtain ⟨w, hw, hu⟩ := h x (by simp)
    obtain ⟨ws, hws, hus⟩ := ih (fun y hy => h y (by simp [hy]))
    refine ⟨w :: ws, ?_, ?_⟩
    · rw [pyPackList, hw, hws]
      rfl
    · rw [pyUnpackList, hu, hus]

theorem packDict_ok (m : List (String × Value))
    (h : ∀ p ∈ m, ∃ w, pyPack p.2 = .ok w ∧ pyUnpack w = p.2) :
    ∃ ws, pyPackDict m = .ok ws ∧ pyUnpackDict ws = m := by
  induction m with
  | nil => exact ⟨[], rfl, rfl⟩
  | cons p t ih =>
    obtain ⟨k, v⟩ := p
    obtain ⟨w, hw, hu⟩ := h (k, v) (by simp)
    obtain ⟨ws, hws, hus⟩ := ih (fun q hq => h q (by simp [hq]))
    refine ⟨(k, w) :: ws, ?_, ?_⟩
    · rw [pyPackDict, hw, hws]
      rfl
    · rw [pyUnpackDict, hu, hus]

theorem splitCh_cons_length (c a : Char) (t : List Char) (h : ¬(a = c)) :
    (splitCh c (a :: t)).length = (splitCh c t).length := by
  have hne := splitCh_ne_nil c t
  simp only [splitCh, if_neg h, List.length_cons]
  rcases hr : splitCh c t with _ | ⟨p, ps⟩
  · exact absurd hr hne
  · simp

theorem decCanonCore_parts_le_two (core : List Char) (h : decCanonCore core = true) :
    (splitCh '.' core).length ≤ 2 := by
  unfold decCanonCore at h
  rcases hr : splitCh '.' core with _ | ⟨p, _ | ⟨q, _ | _⟩⟩ <;>
    rw [hr] at h <;> simp_all

theorem decCanon_parts_le_two (l : List Char) (h : decCanonChars l = true) :
    (splitCh '.' l).length ≤ 2 := by
  unfold decCanonChars at h
  by_cases hs : l.headD ' ' = '-'
  · have hl : l = '-' :: l.tail := by
      cases l with
      | nil => cases hs
      | cons a t =>
        simp only [List.headD_cons] at hs
        rw [hs]
        rfl
    rw [if_pos hs] at h
    rw [hl, splitCh_cons_length '.' '-' l.tail (by decide)]
    exact decCanonCore_parts_le_two l.tail h
  · rw [if_neg hs] at h
    exact decCanonCore_parts_le_two l h

theorem unpackList_map_str (l : List (List Char)) :
    pyUnpackList (l.map (fun p => Wire.str (String.mk p))) =
      l.map (fun p => Value.str (String.mk p)) := by
  induction l with
  | nil => rfl
  | cons p t ih =>
    simp only [List.map_cons, pyUnpackList, pyUnpack, ih]

theorem allStrData_map (l : List (List Char)) :
    allStrData (l.map (fun p => Value.str (String.mk p))) = some l := by
  induction l with
  | nil => rfl
  | cons p t ih =>
    simp only [List.map_cons, allStrData, ih, Option.map_some]
    rfl

theorem stringMkData (s : String) : String.mk s.data = s := by
  cases s
  rfl

/-- The serializer round trip at the wire boundary: on the `roundSafe`
class, encoding succeeds and decoding is exact. -/
theorem pyRoundTrip :
    ∀ v, roundSafe v = true → ∃ w, pyPack v = Except.ok w ∧ pyUnpack w = v := by
  apply value_induction
  case hnull => intro _; exact ⟨.nil, rfl, rfl⟩
  case hbool => intro b _; exact ⟨.bool b, rfl, rfl⟩
  case hint =>
    intro n h
    simp only [roundSafe, decide_eq_true_eq] at h
    refine ⟨.int n, ?_, rfl⟩
    simp only [pyPack, if_pos h]
  case hfloat => intro bits _; exact ⟨.float bits, rfl, rfl⟩
  case hstr => intro s _; exact ⟨.str s, rfl, rfl⟩
  case hbin => intro bs _; exact ⟨.bin bs, rfl, rfl⟩
  case harr =>
    intro xs ihs h
    simp only [roundSafe, Bool.and_eq_true, Bool.not_eq_true'] at h
    obtain ⟨hext, hsafe⟩ := h
    obtain ⟨ws, hws, hus⟩ :=
      packList_ok xs (fun x hx => ihs x hx (roundSafeList_mem xs hsafe x hx))
    refine ⟨.arr ws, ?_, ?_⟩
    · simp only [pyPack, hws]
      rfl
    · simp only [pyUnpack, hus]
      exact listHook_of_not_ext xs (extTag_false_cond xs hext)
  case hmap =>
    intro m ihs h
    simp only [roundSafe] at h
    obtain ⟨ws, hws, hus⟩ :=
      packDict_ok m (fun p hp => ihs p hp (roundSafeDict_mem m h p hp))
    refine ⟨.map ws, ?_, ?_⟩
    · simp only [pyPack, hws]
      rfl
    · simp only [pyUnpack, hus]
  case hdec =>
    intro s h
    simp only [roundSafe] at h
    have hlen := decCanon_parts_le_two s.data h
    refine ⟨_, rfl, ?_⟩
    have hinner : pyUnpack (.arr ((splitCh '.' s.data).map (fun p => Wire.str (String.mk p)))) =
        .arr ((splitCh '.' s.data).map (fun p => Value.str (String.mk p))) := by
      simp only [pyUnpack, unpackList_map_str]
      apply listHook_of_not_ext
      intro a t payload heq _
      exfalso
      have hlen3 := congrArg List.length heq
      simp only [List.length_map, List.length_cons, List.length_nil] at hlen3
      omega
    have houter : pyUnpack (.arr [Wire.str "type", Wire.str "decimal",
        .arr ((splitCh '.' s.data).map (fun p => Wire.str (String.mk p)))]) =
        listHook [.str "type", .str "decimal",
          pyUnpack (.arr ((splitCh '.' s.data).map (fun p => Wire.str (String.mk p))))] := rfl
    rw [houter, hinner]
    dsimp only [listHook]
    rw [if_pos rfl]
    unfold decodeTyped
    rw [if_pos rfl]
    rw [Option.getD_some]
    simp only [pyJoinDots, allStrData_map, Option.map_some']
    rw [joinCh_splitCh]
    unfold pyDecimalParse
    rw [if_pos h]
    rw [Option.getD_some, stringMkData]
  case hdate =>
    intro y m d h
    simp only [roundSafe, decide_eq_true_eq] at h
    refine ⟨_, rfl, ?_⟩
    simp only [pyUnpack, pyUnpackList]
    dsimp only [listHook]
    rw [if_pos rfl]
    unfold decodeTyped
    rw [if_neg (by decide), if_neg (by decide), if_pos rfl]
    rw [Option.getD_some]
    show (match strToDate (dateToStr y m d) with
          | some (y, m, d) => Value.date y m d
          | none => Value.null) = Value.date y m d
    rw [strToDate_dateToStr y m d h.1]
  case hdt =>
    intro y mo d h mi s us hv
    simp only [roundSafe, decide_eq_true_eq] at hv
    refine ⟨_, rfl, ?_⟩
    simp only [pyUnpack, pyUnpackList]
    dsimp only [listHook]
    rw [if_pos rfl]
    unfold decodeTyped
    rw [if_neg (by decide), if_pos rfl]
    rw [Option.getD_some]
    show (match strToDatetime (datetimeToStr y mo d h mi s us) with
          | some (y, mo, d, h, mi, sec, us) => Value.datetime y mo d h mi sec us
          | none => Value.null) = Value.datetime y mo d h mi s us
    rw [strToDatetime_datetimeToStr y mo d h mi s us hv.1]
  case htod =>
    intro h mi s hfalse
    simp only [roundSafe] at hfalse
    cases hfalse

/-- Decoding an array of the extension shape with an unrecognized type
name returns the decoded tuple unchanged. -/
theorem unpack_unknown_ext (t : String) (w : Wire)
    (h : ¬(t = "decimal" ∨ t = "datetime" ∨ t = "date" ∨ t = "time")) :
    pyUnpack (.arr [.str "type", .str t, w]) =
      .arr [.str "type", .str t, pyUnpack w] := by
  push_neg at h
  obtain ⟨h1, h2, h3, h4⟩ := h
  have : pyUnpack (.arr [.str "type", .str t, w]) =
      listHook [.str "type", .str t, pyUnpack w] := rfl
  rw [this]
  dsimp only [listHook]
  rw [if_pos rfl]
  unfold decodeTyped
  simp [h1, h2, h3, h4]

/-- C1 — counterexample.  The round-trip law `unpack(pack(v)) == v` fails
on the representable value `["type", "time", "12:00:00"]`: a plain nested
list of three strings whose encoding is indistinguishable from the
serializer's extension tuple for a time value, so decoding returns the
string `"12:00:00"` instead of the original list. -/
theorem c1_round_trip_counterexample :
    pyPack (Value.arr [.str "type", .str "time", .str "12:00:00"]) =
      Except.ok (Wire.arr [.str "type", .str "time", .str "12:00:00"]) ∧
    pyUnpack (Wire.arr [.str "type", .str "time", .str "12:00:00"]) =
      Value.str "12:00:00" ∧
    Value.str "12:00:00" ≠
      Value.arr [.str "type", .str "time", .str "12:00:00"] := by
  refine ⟨rfl, rfl, ?_⟩
  intro hc
  cases hc

/-- C1 (amended): decoding inverts encoding for every value built from
null, booleans, 64-bit-range integers, non-NaN floats, strings, binary,
plain finite decimals, valid dates and naive datetimes with four-digit
years, and nested maps and lists of such values in which no list has the
extension-tuple shape `["type", name, _]` with a recognized name.
Time-of-day values are excluded: they decode to their `"HH:MM:SS"`
string.  Lists of the extension-tuple shape are excluded: the decoder
hook transforms them. -/
theorem c1_round_trip (v : Value) (h : roundSafe v = true) :
    ∃ w, pyPack v = Except.ok w ∧ pyUnpack w = v :=
  pyRoundTrip v h

/-- C1 — witness: the amended round trip applied to a concrete value
containing every covered type. -/
theorem c1_round_trip_witness :
    roundSafe (Value.map [("a", .null), ("b", .bool true), ("n", .int 5),
      ("f", .float 4607182418800017408), ("s", .str "hi"),
      ("l", .arr [.int 1, .str "x"]), ("d", .decimal "-10.25"),
      ("dt", .date 2017 1 27),
      ("ts", .datetime 2017 1 27 20 12 8 952811)]) = true ∧
    ∃ w, pyPack (Value.map [("a", .null), ("b", .bool true), ("n", .int 5),
      ("f", .float 4607182418800017408), ("s", .str "hi"),
      ("l", .arr [.int 1, .str "x"]), ("d", .decimal "-10.25"),
      ("dt", .date 2017 1 27),
      ("ts", .datetime 2017 1 27 20 12 8 952811)]) = Except.ok w ∧
    pyUnpack w = Value.map [("a", .null), ("b", .bool true), ("n", .int 5),
      ("f", .float 4607182418800017408), ("s", .str "hi"),
      ("l", .arr [.int 1, .str "x"]), ("d", .decimal "-10.25"),
      ("dt", .date 2017 1 27),
      ("ts", .datetime 2017 1 27 20 12 8 952811)] :=
  ⟨by decide, c1_round_trip _ (by decide)⟩

/-- C2 — counterexample.  A 3-element array with first element `"type"`
and an unrecognized type name does **not** decode to null: `_decode`
returns the list unchanged (only a recognized name whose conversion
raises yields null). -/
theorem c2_unknown_ext_counterexample :
    pyUnpack (Wire.arr [.str "type", .str "bogus", .str "x"]) =
      Value.arr [.str "type", .str "bogus", .str "x"] ∧
    pyUnpack (Wire.arr [.str "type", .str "bogus", .str "x"]) ≠ Value.null := by
  refine ⟨rfl, ?_⟩
  intro hc
  cases hc

/-- C2 (amended): for a 3-element array whose first element is `"type"`:
with an unrecognized type name the decoded tuple is returned unchanged
(not null); with a recognized type name whose encoded form cannot be
converted the decoder yields null; and in both cases decoding of an
enclosing message succeeds, as shown on enclosing one-key maps. -/
theorem c2_malformed_ext_decode :
    (∀ (t : String) (w : Wire),
      ¬(t = "decimal" ∨ t = "datetime" ∨ t = "date" ∨ t = "time") →
      pyUnpack (.arr [.str "type", .str t, w]) =
        .arr [.str "type", .str t, pyUnpack w]) ∧
    pyUnpack (Wire.arr [.str "type", .str "date", .str ""]) = Value.null ∧
    pyUnpack (Wire.arr [.str "type", .str "decimal", .int 5]) = Value.null ∧
    pyUnpack (Wire.map [("k", Wire.arr [.str "type", .str "date", .str ""])]) =
      Value.map [("k", Value.null)] ∧
    pyUnpack (Wire.map [("k", Wire.arr [.str "type", .str "bogus", .str "x"])]) =
      Value.map [("k", Value.arr [.str "type", .str "bogus", .str "x"])] :=
  ⟨unpack_unknown_ext, rfl, rfl, rfl, rfl⟩

/-- C2 — witness: the quantified part of the amended claim applied to the
unrecognized type name `"bogus"`. -/
theorem c2_malformed_ext_decode_witness :
    ¬("bogus" = "decimal" ∨ "bogus" = "datetime" ∨ "bogus" = "date" ∨
      "bogus" = "time") ∧
    pyUnpack (Wire.arr [.str "type", .str "bogus", .str "x"]) =
      Value.arr [.str "type", .str "bogus", .str "x"] :=
  ⟨by decide, c2_malformed_ext_decode.1 "bogus" (.str "x") (by decide)⟩

theorem splitLast_isSome (p : List String) (h : p ≠ []) :
    ∃ pr, splitLast p = some pr := by
  induction p with
  | nil => exact absurd rfl h
  | cons k rest ih =>
    cases rest with
    | nil => exact ⟨([], k), rfl⟩
    | cons k₂ rest₂ =>
      obtain ⟨pr, hpr⟩ := ih (by simp)
      exact ⟨(k :: pr.1, pr.2), by rw [splitLast, hpr]⟩

theorem walkMut_nil (f : Dict → String → Bool × Dict) (e : Bool) (m : Dict) :
    walkMut f e m [] = (e, m) := rfl

theorem walkMut_single (f : Dict → String → Bool × Dict) (e : Bool)
    (m : Dict) (k : String) : walkMut f e m [k] = f m k := rfl

theorem walkMut_cons₂ (f : Dict → String → Bool × Dict) (e : Bool)
    (m : Dict) (k k₂ : String) (rest₂ : List String) :
    walkMut f e m (k :: k₂ :: rest₂) =
      match dictGet m k with
      | none =>
        let r := walkMut f e [] (k₂ :: rest₂)
        (r.1, dictSet m k (.map r.2))
      | some (.map m') =>
        let r := walkMut f e m' (k₂ :: rest₂)
        (r.1, dictSet m k (.map r.2))
      | some _ => (false, m) := by
  rw [walkMut]

/-- A mutator whose final step always succeeds on an empty dictionary
succeeds along any non-empty path that starts from an empty dictionary
(all intermediate segments are created fresh). -/
theorem walkMut_from_empty (f : Dict → String → Bool × Dict) (e : Bool)
    (hf0 : ∀ k, (f [] k).1 = true) :
    ∀ p, p ≠ [] → (walkMut f e [] p).1 = true := by
  intro p
  induction p with
  | nil => intro h; exact absurd rfl h
  | cons k rest ih =>
    intro _
    cases rest with
    | nil => exact hf0 k
    | cons k₂ rest₂ =>
      rw [walkMut_cons₂]
      show (walkMut f e [] (k₂ :: rest₂)).1 = true
      exact ih (by simp)

/-- A failed mutation through the shared walker leaves the document
unchanged (`set`/`append`/`extend` fail silently). -/
theorem walkMut_fail_unchanged (f : Dict → String → Bool × Dict) (e : Bool)
    (hf0 : ∀ k, (f [] k).1 = true)
    (hff : ∀ mm k, (f mm k).1 = false → (f mm k).2 = mm) :
    ∀ p m, (walkMut f e m p).1 = false → (walkMut f e m p).2 = m := by
  intro p
  induction p with
  | nil => intro m _; rfl
  | cons k rest ih =>
    intro m hfail
    cases rest with
    | nil => exact hff m k hfail
    | cons k₂ rest₂ =>
      rw [walkMut_cons₂] at hfail ⊢
      rcases hg : dictGet m k with _ | v
      · rw [hg] at hfail
        have := walkMut_from_empty f e hf0 (k₂ :: rest₂) (by simp)
        simp only [this] at hfail
        cases hfail
      · rw [hg] at hfail
        cases v with
        | map m' =>
          simp only at hfail ⊢
          rw [ih m' hfail, dictSet_self m k (.map m') hg]
        | null | bool _ | int _ | float _ | str _ | bin _ | arr _
        | decimal _ | date _ _ _ | datetime _ _ _ _ _ _ _ | timeofday _ _ _ => rfl

theorem getPathM_cons (m : Dict) (k : String) (rest : List String) :
    getPathM m (k :: rest) =
      match dictGet m k with
      | some v => getPathV v rest
      | none => none := rfl

theorem getPathM_single (m : Dict) (k : String) :
    getPathM m [k] = dictGet m k := by
  rw [getPathM_cons]
  rcases dictGet m k <;> rfl

theorem pSet_success_get (p : List String) :
    ∀ m v, p ≠ [] → (pSet m p v).1 = true →
      getPathM (pSet m p v).2 p = some v := by
  induction p with
  | nil => intro m v h; exact absurd rfl h
  | cons k rest ih =>
    intro m v _ hok
    cases rest with
    | nil =>
      show getPathM (dictSet m k v) [k] = some v
      rw [getPathM_single, dictGet_dictSet_self]
    | cons k₂ rest₂ =>
      unfold pSet at hok ⊢
      rw [walkMut_cons₂] at hok ⊢
      rcases hg : dictGet m k with _ | v₀
      · rw [hg] at hok
        dsimp only at hok ⊢
        rw [getPathM_cons, dictGet_dictSet_self]
        exact ih [] v (by simp) hok
      · rw [hg] at hok
        cases v₀ with
        | map m' =>
          dsimp only at hok ⊢
          rw [getPathM_cons, dictGet_dictSet_self]
          exact ih m' v (by simp) hok
        | null | bool _ | int _ | float _ | str _ | bin _ | arr _
        | decimal _ | date _ _ _ | datetime _ _ _ _ _ _ _ | timeofday _ _ _ =>
          simp at hok

theorem pAppend_nonlist_fails (p : List String) :
    ∀ m v w, p ≠ [] → getPathM m p = some w → (∀ xs, w ≠ .arr xs) →
      pAppend m p v = (false, m) := by
  induction p with
  | nil => intro m v w h; exact absurd rfl h
  | cons k rest ih =>
    intro m v w _ hget hnl
    cases rest with
    | nil =>
      rw [getPathM_single] at hget
      unfold pAppend
      rw [walkMut_single, hget]
      cases w with
      | arr xs => exact absurd rfl (hnl xs)
      | null | bool _ | int _ | float _ | str _ | bin _ | map _
      | decimal _ | date _ _ _ | datetime _ _ _ _ _ _ _ | timeofday _ _ _ => rfl
    | cons k₂ rest₂ =>
      rw [getPathM_cons] at hget
      unfold pAppend
      rw [walkMut_cons₂]
      rcases hg : dictGet m k with _ | v₀
      · rw [hg] at hget
        cases hget
      · rw [hg] at hget
        cases v₀ with
        | map m' =>
          dsimp only at hget ⊢
          have := ih m' v w (by simp) hget hnl
          unfold pAppend at this
          rw [this, dictSet_self m k (.map m') hg]
        | null | bool _ | int _ | float _ | str _ | bin _ | arr _
        | decimal _ | date _ _ _ | datetime _ _ _ _ _ _ _ | timeofday _ _ _ => rfl

theorem pAppend_fail_unchanged (m : Dict) (p : List String) (v : Value)
    (h : (pAppend m p v).1 = false) : (pAppend m p v).2 = m := by
  refine walkMut_fail_unchanged _ _ ?_ ?_ p m h
  · intro k
    rfl
  · intro mm k hf
    revert hf
    rcases hm : dictGet mm k with _ | w
    · intro hf; cases hf
    · cases w <;> intro hf <;> first | rfl | cases hf

theorem pExtend_fail_unchanged (m : Dict) (p : List String) (vs : List Value)
    (h : (pExtend m p vs).1 = false) : (pExtend m p vs).2 = m := by
  refine walkMut_fail_unchanged _ _ ?_ ?_ p m h
  · intro k
    rfl
  · intro mm k hf
    revert hf
    rcases hm : dictGet mm k with _ | w
    · intro hf; cases hf
    · cases w <;> intro hf <;> first | rfl | cases hf

theorem pDelete_nonempty_ok (m : Dict) (p : List String) (h : p ≠ []) :
    ∃ r, pDelete m p = Except.ok r := by
  obtain ⟨⟨par, k⟩, hpr⟩ := splitLast_isSome p h
  unfold pDelete
  rw [hpr]
  dsimp only
  cases hg : getPathM m par with
  | none => exact ⟨(false, m), rfl⟩
  | some w =>
    cases w with
    | map pm =>
      by_cases hk : (dictGet pm k).isSome
      · exact ⟨(true, updAt m par (dictDel pm k)), if_pos hk⟩
      · exact ⟨(false, m), if_neg hk⟩
    | null | bool _ | int _ | float _ | str _ | bin _ | arr _
    | decimal _ | date _ _ _ | datetime _ _ _ _ _ _ _ | timeofday _ _ _ =>
      exact ⟨(false, m), rfl⟩

theorem pDelete_false_unchanged (m : Dict) (p : List String) (r : Bool × Dict)
    (h : pDelete m p = Except.ok r) (hf : r.1 = false) : r.2 = m := by
  unfold pDelete at h
  rcases hpr : splitLast p with _ | ⟨⟨par, k⟩⟩
  · rw [hpr] at h
    cases h
  · rw [hpr] at h
    dsimp only at h
    rcases hg : getPathM m par with _ | w
    · rw [hg] at h
      cases h
      rfl
    · rw [hg] at h
      cases w <;> try (cases h; rfl)
      next pm =>
        dsimp only at h
        by_cases hk : (dictGet pm k).isSome
        · rw [if_pos hk] at h
          cases h
          cases hf
        · rw [if_neg hk] at h
          cases h
          rfl

/-- C5 — counterexample.  `Payload.delete` **does** raise on the empty
path: the unpacking `*path, name = path` throws `ValueError`, so the
operations are not uniformly exception-free for every path. -/
theorem c5_never_raises_counterexample :
    pDelete [] [] = Except.error "ValueError: not enough values to unpack" := rfl

/-- C5 (amended): the payload operations are structural and total for
every document, path and value, with one exception: `delete` raises
`ValueError` on the empty path.  `exists` returns false and `get`
returns the given default on a missing path; `set`/`append`/`extend`
return a success flag and leave the document unchanged on failure;
a successful `set` stores the value at the path; `append` fails when the
final path value exists and is not a sequence; `delete` on a non-empty
path never raises and leaves the document unchanged when it returns
false. -/
theorem c5_structural_ops :
    (∀ (m : Dict) (p : List String) (d : Value),
      pExists m p = false → pGet m p d = d) ∧
    (∀ (m : Dict) (p : List String) (v : Value),
      (pSet m p v).1 = false → (pSet m p v).2 = m) ∧
    (∀ (m : Dict) (p : List String) (v : Value), p ≠ [] →
      (pSet m p v).1 = true → getPathM (pSet m p v).2 p = some v) ∧
    (∀ (m : Dict) (p : List String) (v w : Value), p ≠ [] →
      getPathM m p = some w → (∀ xs, w ≠ Value.arr xs) →
      pAppend m p v = (false, m)) ∧
    (∀ (m : Dict) (p : List String) (v : Value),
      (pAppend m p v).1 = false → (pAppend m p v).2 = m) ∧
    (∀ (m : Dict) (p : List String) (vs : List Value),
      (pExtend m p vs).1 = false → (pExtend m p vs).2 = m) ∧
    (∀ (m : Dict) (p : List String), p ≠ [] →
      ∃ r, pDelete m p = Except.ok r) ∧
    (∀ (m : Dict) (p : List String) (r : Bool × Dict),
      pDelete m p = Except.ok r → r.1 = false → r.2 = m) := by
  refine ⟨?_, ?_, ?_, ?_, ?_, ?_, ?_, ?_⟩
  · intro m p d hne
    unfold pExists at hne
    unfold pGet
    rcases h : getPathM m p with _ | w
    · rfl
    · rw [h] at hne
      cases hne
  · intro m p v h
    refine walkMut_fail_unchanged _ _ ?_ ?_ p m h
    · intro k; rfl
    · intro mm k hf; cases hf
  · exact fun m p v h1 h2 => pSet_success_get p m v h1 h2
  · exact fun m p v w h1 h2 h3 => pAppend_nonlist_fails p m v w h1 h2 h3
  · exact pAppend_fail_unchanged
  · exact pExtend_fail_unchanged
  · exact pDelete_nonempty_ok
  · exact pDelete_false_unchanged

/-- C5 — witness: the amended properties applied at concrete inputs. -/
theorem c5_structural_ops_witness :
    (pExists [] ["a"] = false ∧ pGet [] ["a"] (Value.int 7) = Value.int 7) ∧
    pAppend [("k", Value.int 1)] ["k"] (Value.int 2) = (false, [("k", Value.int 1)]) ∧
    ∃ r, pDelete ([] : Dict) ["a"] = Except.ok r :=
  ⟨⟨rfl, c5_structural_ops.1 [] ["a"] (Value.int 7) rfl⟩,
   c5_structural_ops.2.2.2.1 [("k", Value.int 1)] ["k"] (Value.int 2) (Value.int 1)
     (by decide) rfl (fun xs hx => Value.noConfusion hx),
   c5_structural_ops.2.2.2.2.2.2.1 [] ["a"] (by decide)⟩

theorem pathClear_nil (p : List String) : pathClear [] p = true := by
  cases p with
  | nil => rfl
  | cons k rest =>
    cases rest with
    | nil => rfl
    | cons k₂ rest₂ => rfl

theorem getPathM_nil_cons (k : String) (rest : List String) :
    getPathM [] (k :: rest) = none := rfl

theorem getPathM_cons_none (m : Dict) (k : String) (rest : List String)
    (hg : dictGet m k = none) : getPathM m (k :: rest) = none := by
  rw [getPathM_cons, hg]

theorem getPathM_cons_map (m : Dict) (k : String) (m' : Dict)
    (rest : List String) (hg : dictGet m k = some (.map m')) :
    getPathM m (k :: rest) = getPathM m' rest := by
  rw [getPathM_cons, hg]
  rfl

theorem pathClear_cons₂_none (m : Dict) (k k₂ : String) (rest₂ : List String)
    (hg : dictGet m k = none) :
    pathClear m (k :: k₂ :: rest₂) = true := by
  unfold pathClear
  rw [hg]

theorem pathClear_cons₂_map (m : Dict) (k k₂ : String) (m' : Dict)
    (rest₂ : List String) (hg : dictGet m k = some (.map m')) :
    pathClear m (k :: k₂ :: rest₂) = pathClear m' (k₂ :: rest₂) := by
  unfold pathClear
  rw [hg]
  rfl

theorem writeAt_cons₂_none (m : Dict) (k k₂ : String) (rest₂ : List String)
    (w : Value) (hg : dictGet m k = none) :
    writeAt m (k :: k₂ :: rest₂) w = dictSet m k (.map (writeAt [] (k₂ :: rest₂) w)) := by
  conv_lhs => rw [writeAt]
  rw [hg]

theorem writeAt_cons₂_map (m : Dict) (k k₂ : String) (m' : Dict)
    (rest₂ : List String) (w : Value) (hg : dictGet m k = some (.map m')) :
    writeAt m (k :: k₂ :: rest₂) w = dictSet m k (.map (writeAt m' (k₂ :: rest₂) w)) := by
  conv_lhs => rw [writeAt]
  rw [hg]

theorem refWalk_cons (final : Option Value → Option Value) (e : Bool)
    (m : Dict) (k : String) (rest : List String) :
    refWalk final e m (k :: rest) =
      if pathClear m (k :: rest) then
        match final (getPathM m (k :: rest)) with
        | some w => (true, writeAt m (k :: rest) w)
        | none => (false, m)
      else (false, m) := rfl

/-- The source's single-pass mutator walk computes exactly the
reference's check-then-write decomposition, for any final-step function
that cannot fail on a missing value. -/
theorem walkMut_eq_refWalk (final : Option Value → Option Value) (e : Bool)
    (hfin : ∃ w, final none = some w) :
    ∀ p m, walkMut (fun mm k =>
        match final (dictGet mm k) with
        | some w => (true, dictSet mm k w)
        | none => (false, mm)) e m p = refWalk final e m p := by
  intro p
  induction p with
  | nil => intro m; rfl
  | cons k rest ih =>
    intro m
    cases rest with
    | nil =>
      rw [walkMut_single, refWalk_cons]
      have hpc : pathClear m [k] = true := rfl
      rw [if_pos hpc, getPathM_single]
      rcases hf : final (dictGet m k) with _ | w
      · rfl
      · rfl
    | cons k₂ rest₂ =>
      obtain ⟨w0, hw0⟩ := hfin
      rw [walkMut_cons₂]
      rcases hg : dictGet m k with _ | v₀
      · dsimp only
        rw [ih []]
        have h1 : refWalk final e [] (k₂ :: rest₂) = (true, writeAt [] (k₂ :: rest₂) w0) := by
          rw [refWalk_cons, if_pos (pathClear_nil _), getPathM_nil_cons, hw0]
        rw [h1, refWalk_cons final e m k (k₂ :: rest₂),
          if_pos (pathClear_cons₂_none m k k₂ rest₂ hg),
          getPathM_cons_none m k (k₂ :: rest₂) hg, hw0]
        dsimp only
        rw [writeAt_cons₂_none m k k₂ rest₂ w0 hg]
      · cases v₀ with
        | map m' =>
          dsimp only
          rw [ih m']
          rw [refWalk_cons final e m' k₂ rest₂,
            refWalk_cons final e m k (k₂ :: rest₂),
            getPathM_cons_map m k m' (k₂ :: rest₂) hg,
            pathClear_cons₂_map m k k₂ m' rest₂ hg]
          rcases hpc : pathClear m' (k₂ :: rest₂) with _ | _
          · rw [if_neg (by simp), if_neg (by simp)]
            dsimp only
            rw [dictSet_self m k (.map m') hg]
          · rw [if_pos rfl, if_pos rfl]
            rcases hf : final (getPathM m' (k₂ :: rest₂)) with _ | w
            · dsimp only
              rw [dictSet_self m k (.map m') hg]
            · dsimp only
              rw [writeAt_cons₂_map m k k₂ m' rest₂ w hg]
        | null | bool _ | int _ | float _ | str _ | bin _ | arr _
        | decimal _ | date _ _ _ | datetime _ _ _ _ _ _ _ | timeofday _ _ _ =>
          have hpc : ¬(pathClear m (k :: k₂ :: rest₂) = true) := by
            unfold pathClear
            rw [hg]
            exact fun hc => Bool.noConfusion hc
          rw [refWalk_cons, if_neg hpc]

theorem pSet_eq_refSet (m : Dict) (p : List String) (v : Value) :
    pSet m p v = refSet m p v :=
  walkMut_eq_refWalk (fun _ => some v) true ⟨v, rfl⟩ p m

theorem pAppend_eq_refAppend (m : Dict) (p : List String) (v : Value) :
    pAppend m p v = refAppend m p v := by
  have hf : (fun (mm : Dict) (k : String) =>
      match dictGet mm k with
      | none => (true, dictSet mm k (Value.arr [v]))
      | some (.arr xs) => (true, dictSet mm k (Value.arr (xs ++ [v])))
      | some _ => (false, mm)) =
      (fun (mm : Dict) (k : String) =>
        match (fun cur =>
          match cur with
          | none => some (Value.arr [v])
          | some (.arr xs) => some (Value.arr (xs ++ [v]))
          | some _ => none) (dictGet mm k) with
        | some w => (true, dictSet mm k w)
        | none => (false, mm)) := by
    funext mm k
    rcases dictGet mm k with _ | w
    · rfl
    · cases w <;> rfl
  unfold pAppend
  rw [hf]
  exact walkMut_eq_refWalk (fun cur =>
    match cur with
    | none => some (Value.arr [v])
    | some (.arr xs) => some (Value.arr (xs ++ [v]))
    | some _ => none) false ⟨.arr [v], rfl⟩ p m

theorem pExtend_eq_refExtend (m : Dict) (p : List String) (vs : List Value) :
    pExtend m p vs = refExtend m p vs := by
  have hf : (fun (mm : Dict) (k : String) =>
      match dictGet mm k with
      | none => (true, dictSet mm k (Value.arr vs))
      | some (.arr xs) => (true, dictSet mm k (Value.arr (xs ++ vs)))
      | some _ => (false, mm)) =
      (fun (mm : Dict) (k : String) =>
        match (fun cur =>
          match cur with
          | none => some (Value.arr vs)
          | some (.arr xs) => some (Value.arr (xs ++ vs))
          | some _ => none) (dictGet mm k) with
        | some w => (true, dictSet mm k w)
        | none => (false, mm)) := by
    funext mm k
    rcases dictGet mm k with _ | w
    · rfl
    · cases w <;> rfl
  unfold pExtend
  rw [hf]
  exact walkMut_eq_refWalk (fun cur =>
    match cur with
    | none => some (Value.arr vs)
    | some (.arr xs) => some (Value.arr (xs ++ vs))
    | some _ => none) false ⟨.arr vs, rfl⟩ p m

theorem updAt_dictDel_eq_delAt : ∀ (par : List String) (m pm : Dict) (k : String),
    getPathM m par = some (.map pm) → updAt m par (dictDel pm k) = delAt m par k := by
  intro par
  induction par with
  | nil =>
    intro m pm k h
    have hm : Value.map m = Value.map pm := Option.some.inj h
    have : m = pm := by injection hm
    subst this
    rfl
  | cons k' rest ih =>
    intro m pm k h
    rw [getPathM_cons] at h
    rcases hg : dictGet m k' with _ | v₀
    · rw [hg] at h
      cases h
    · rw [hg] at h
      cases v₀ with
      | map m₁ =>
        dsimp only at h
        unfold updAt delAt
        rw [hg]
        dsimp only
        rw [ih m₁ pm k h]
      | null | bool _ | int _ | float _ | str _ | bin _ | arr _
      | decimal _ | date _ _ _ | datetime _ _ _ _ _ _ _ | timeofday _ _ _ =>
        exfalso
        cases rest with
        | nil =>
          dsimp only [getPathV] at h
          cases h
        | cons a b =>
          dsimp only [getPathV, getStep] at h
          cases h

theorem pDelete_eq_refDelete (m : Dict) (p : List String) (h : p ≠ []) :
    pDelete m p = Except.ok (refDelete m p) := by
  obtain ⟨⟨par, k⟩, hpr⟩ := splitLast_isSome p h
  unfold pDelete refDelete
  rw [hpr]
  dsimp only
  rcases hg : getPathM m par with _ | w
  · rfl
  · cases w with
    | map pm =>
      dsimp only
      by_cases hk : (dictGet pm k).isSome
      · rw [if_pos hk, if_pos hk, updAt_dictDel_eq_delAt par m pm k hg]
      · rw [if_neg hk, if_neg hk]
    | null | bool _ | int _ | float _ | str _ | bin _ | arr _
    | decimal _ | date _ _ _ | datetime _ _ _ _ _ _ _ | timeofday _ _ _ => rfl

theorem runPy_eq_runRef : ∀ (ops : List DocOp) (m : Dict),
    ops.all delOk = true → runPy m ops = Except.ok (runRef m ops) := by
  intro ops
  induction ops with
  | nil => intro m _; rfl
  | cons op t ih =>
    intro m hall
    rw [List.all_cons, Bool.and_eq_true] at hall
    cases op with
    | setOp p v =>
      show runPy (pSet m p v).2 t = Except.ok (runRef (refSet m p v).2 t)
      rw [pSet_eq_refSet]
      exact ih _ hall.2
    | appendOp p v =>
      show runPy (pAppend m p v).2 t = Except.ok (runRef (refAppend m p v).2 t)
      rw [pAppend_eq_refAppend]
      exact ih _ hall.2
    | extendOp p vs =>
      show runPy (pExtend m p vs).2 t = Except.ok (runRef (refExtend m p vs).2 t)
      rw [pExtend_eq_refExtend]
      exact ih _ hall.2
    | deleteOp p =>
      have hp : p ≠ [] := by
        have := hall.1
        rw [delOk] at this
        cases p with
        | nil => cases this
        | cons a b => exact fun hc => List.noConfusion hc
      show (match pDelete m p with
        | .ok r => runPy r.2 t
        | .error e => .error e) = Except.ok (runRef (refDelete m p).2 t)
      rw [pDelete_eq_refDelete m p hp]
      exact ih _ hall.2

/-- C6 — counterexample.  The claim fails for the one-operation sequence
`[delete []]`: the payload run raises `ValueError` (so no final document
exists to observe), while the reference map is unchanged. -/
theorem c6_reference_equiv_counterexample :
    runPy [] [DocOp.deleteOp []] =
      Except.error "ValueError: not enough values to unpack" ∧
    runRef [] [DocOp.deleteOp []] = [] := ⟨rfl, rfl⟩

/-- C6 (amended): for every finite sequence of set/append/extend/delete
operations whose delete paths are non-empty, running the sequence through
the payload methods from an empty document succeeds and yields exactly
the reference in-memory map built with the equivalent plain operations;
in particular a subsequent `get` of any path with any default returns
the same value on both. -/
theorem c6_reference_equivalence (ops : List DocOp) (h : ops.all delOk = true) :
    ∃ mfin, runPy [] ops = Except.ok mfin ∧ mfin = runRef [] ops ∧
      ∀ (p : List String) (d : Value), pGet mfin p d = pGet (runRef [] ops) p d :=
  ⟨runRef [] ops, runPy_eq_runRef ops [] h, rfl, fun _ _ => rfl⟩

/-- C6 — witness: the equivalence applied to a concrete operation
sequence exercising all four operations. -/
theorem c6_reference_equivalence_witness :
    ([DocOp.setOp ["a", "b"] (.int 1), DocOp.appendOp ["l"] (.str "x"),
      DocOp.extendOp ["l"] [.int 2], DocOp.deleteOp ["a", "b"]].all delOk = true) ∧
    ∃ mfin, runPy [] [DocOp.setOp ["a", "b"] (.int 1), DocOp.appendOp ["l"] (.str "x"),
      DocOp.extendOp ["l"] [.int 2], DocOp.deleteOp ["a", "b"]] = Except.ok mfin ∧
      mfin = runRef [] [DocOp.setOp ["a", "b"] (.int 1), DocOp.appendOp ["l"] (.str "x"),
        DocOp.extendOp ["l"] [.int 2], DocOp.deleteOp ["a", "b"]] ∧
      ∀ (p : List String) (d : Value),
        pGet mfin p d = pGet (runRef [] [DocOp.setOp ["a", "b"] (.int 1),
          DocOp.appendOp ["l"] (.str "x"), DocOp.extendOp ["l"] [.int 2],
          DocOp.deleteOp ["a", "b"]]) p d :=
  ⟨rfl, c6_reference_equivalence _ rfl⟩

/-- Merging an entry under a key different from `k` into a dictionary
keeps the dictionary shape and the value at `k`. -/
theorem mergeEntry_preserves_ne (k₀ : String) (v₀ : Value) (dm : Dict)
    (k : String) (hne : k₀ ≠ k) (d₁ : Value)
    (h : mergeEntry k₀ v₀ (.map dm) = .ok d₁) :
    ∃ dm₁, d₁ = .map dm₁ ∧ dictGet dm₁ k = dictGet dm k := by
  unfold mergeEntry at h
  rcases hg : dictGet dm k₀ with _ | cur
  · rw [hg] at h
    cases h
    exact ⟨_, rfl, dictGet_dictSet_ne dm k₀ k v₀ hne⟩
  · rw [hg] at h
    cases v₀ with
    | map sm =>
      dsimp only at h
      rcases hm : mergeDict sm cur with e | merged
      · rw [hm] at h
        cases h
      · rw [hm] at h
        cases h
        exact ⟨_, rfl, dictGet_dictSet_ne dm k₀ k merged hne⟩
    | arr sl =>
      dsimp only at h
      cases cur <;> cases h <;>
        first
        | exact ⟨_, rfl, dictGet_dictSet_ne dm k₀ k _ hne⟩
        | exact ⟨dm, rfl, rfl⟩
    | null | bool _ | int _ | float _ | str _ | bin _
    | decimal _ | date _ _ _ | datetime _ _ _ _ _ _ _ | timeofday _ _ _ =>
      cases h
      exact ⟨dm, rfl, rfl⟩

/-- Merging a source without the key `k` preserves the value at `k`. -/
theorem mergeDict_not_mem (src : List (String × Value)) :
    ∀ (dm : Dict) (k : String), k ∉ src.map Prod.fst →
    ∀ d', mergeDict src (.map dm) = .ok d' →
    ∃ dm', d' = .map dm' ∧ dictGet dm' k = dictGet dm k := by
  induction src with
  | nil =>
    intro dm k _ d' h
    cases h
    exact ⟨dm, rfl, rfl⟩
  | cons e rest ih =>
    obtain ⟨k₀, v₀⟩ := e
    intro dm k hk d' h
    simp only [List.map_cons, List.mem_cons, not_or] at hk
    unfold mergeDict at h
    rcases h₁ : mergeEntry k₀ v₀ (.map dm) with e₁ | dest₁
    · rw [h₁] at h
      cases h
    · rw [h₁] at h
      obtain ⟨dm₁, rfl, hpres⟩ :=
        mergeEntry_preserves_ne k₀ v₀ dm k (fun hc => hk.1 hc.symm) dest₁ h₁
      obtain ⟨dm', rfl, hres⟩ := ih dm₁ k hk.2 d' h
      exact ⟨dm', rfl, hres.trans hpres⟩

/-- The list-concatenation case of the merge: a key present in both
source and destination with list values ends up holding the destination
entries followed by the source entries. -/
theorem mergeDict_list_concat (src : List (String × Value)) :
    ∀ (dm : Dict) (k : String) (sl dl : List Value) (d' : Value),
    (src.map Prod.fst).Nodup →
    dictGet src k = some (.arr sl) →
    dictGet dm k = some (.arr dl) →
    mergeDict src (.map dm) = .ok d' →
    ∃ dm', d' = .map dm' ∧ dictGet dm' k = some (.arr (dl ++ sl)) := by
  induction src with
  | nil =>
    intro dm k sl dl d' _ hs _ _
    cases hs
  | cons e rest ih =>
    obtain ⟨k₀, v₀⟩ := e
    intro dm k sl dl d' hnd hs hd h
    rw [List.map_cons, List.nodup_cons] at hnd
    unfold mergeDict at h
    rcases h₁ : mergeEntry k₀ v₀ (.map dm) with e₁ | dest₁
    · rw [h₁] at h
      cases h
    · rw [h₁] at h
      by_cases hk : k₀ = k
      · subst hk
        rw [dictGet] at hs
        rw [if_pos rfl] at hs
        have hv : v₀ = .arr sl := Option.some.inj hs
        subst hv
        unfold mergeEntry at h₁
        rw [hd] at h₁
        dsimp only at h₁
        cases h₁
        obtain ⟨dm', rfl, hres⟩ := mergeDict_not_mem rest _ k₀ hnd.1 d' h
        refine ⟨dm', rfl, ?_⟩
        rw [hres, dictGet_dictSet_self]
      · rw [dictGet, if_neg hk] at hs
        obtain ⟨dm₁, rfl, hpres⟩ :=
          mergeEntry_preserves_ne k₀ v₀ dm k hk dest₁ h₁
        exact ih dm₁ k sl dl d' hnd.2 hs (hpres.trans hd) h

/-- The shape-mismatch case of the merge: a key present in both where
the source value is a list but the destination value is not is skipped
silently, with no error and no change for that key. -/
theorem mergeDict_list_mismatch (src : List (String × Value)) :
    ∀ (dm : Dict) (k : String) (sl : List Value) (w : Value) (d' : Value),
    (src.map Prod.fst).Nodup →
    dictGet src k = some (.arr sl) →
    dictGet dm k = some w →
    (∀ xs, w ≠ .arr xs) →
    mergeDict src (.map dm) = .ok d' →
    ∃ dm', d' = .map dm' ∧ dictGet dm' k = some w := by
  induction src with
  | nil =>
    intro dm k sl w d' _ hs _ _ _
    cases hs
  | cons e rest ih =>
    obtain ⟨k₀, v₀⟩ := e
    intro dm k sl w d' hnd hs hd hnl h
    rw [List.map_cons, List.nodup_cons] at hnd
    unfold mergeDict at h
    rcases h₁ : mergeEntry k₀ v₀ (.map dm) with e₁ | dest₁
    · rw [h₁] at h
      cases h
    · rw [h₁] at h
      by_cases hk : k₀ = k
      · subst hk
        rw [dictGet, if_pos rfl] at hs
        have hv : v₀ = .arr sl := Option.some.inj hs
        subst hv
        unfold mergeEntry at h₁
        rw [hd] at h₁
        dsimp only at h₁
        cases w with
        | arr xs => exact absurd rfl (hnl xs)
        | null | bool _ | int _ | float _ | str _ | bin _ | map _
        | decimal _ | date _ _ _ | datetime _ _ _ _ _ _ _ | timeofday _ _ _ =>
          cases h₁
          obtain ⟨dm', rfl, hres⟩ := mergeDict_not_mem rest dm k₀ hnd.1 d' h
          exact ⟨dm', rfl, hres.trans hd⟩
      · rw [dictGet, if_neg hk] at hs
        obtain ⟨dm₁, rfl, hpres⟩ :=
          mergeEntry_preserves_ne k₀ v₀ dm k hk dest₁ h₁
        exact ih dm₁ k sl w d' hnd.2 hs (hpres.trans hd) hnl h

/-- C7: transport merge concatenates sequences destination-first.  For
every key present in both source and destination where both values are
sequences, a successful merge leaves that key holding the destination
entries followed by the source entries; in particular merging
`{"a": [1]}` into `{"a": [2]}` yields `{"a": [2, 1]}`. -/
theorem c7_merge_list_concat :
    (∀ (src : List (String × Value)) (dm : Dict) (k : String)
        (sl dl : List Value) (d' : Value),
      (src.map Prod.fst).Nodup →
      dictGet src k = some (.arr sl) →
      dictGet dm k = some (.arr dl) →
      mergeDict src (.map dm) = .ok d' →
      ∃ dm', d' = .map dm' ∧ dictGet dm' k = some (.arr (dl ++ sl))) ∧
    mergeDict [("a", Value.arr [.int 1])] (.map [("a", Value.arr [.int 2])]) =
      .ok (.map [("a", Value.arr [.int 2, .int 1])]) :=
  ⟨mergeDict_list_concat, rfl⟩

/-- C7 — witness: the concatenation law applied to the concrete merge of
`{"a": [1]}` into `{"a": [2]}`. -/
theorem c7_merge_list_concat_witness :
    (([("a", Value.arr [.int 1])].map Prod.fst).Nodup ∧
      mergeDict [("a", Value.arr [.int 1])] (.map [("a", Value.arr [.int 2])]) =
        .ok (.map [("a", Value.arr [.int 2, .int 1])])) ∧
    ∃ dm', (Value.map [("a", Value.arr [.int 2, .int 1])]) = .map dm' ∧
      dictGet dm' "a" = some (.arr ([Value.int 2] ++ [Value.int 1])) :=
  ⟨⟨by simp, rfl⟩,
   c7_merge_list_concat.1 [("a", Value.arr [.int 1])] [("a", Value.arr [.int 2])]
     "a" [.int 1] [.int 2] (.map [("a", Value.arr [.int 2, .int 1])])
     (by simp) rfl rfl rfl⟩

/-- C10: merge shape mismatch.  When a key is present in both source and
destination, the source value is a sequence and the destination value is
not, the merge skips the key silently: no error is raised for that
entry, the destination value is kept, and after a successful whole merge
the key still holds the original destination value. -/
theorem c10_merge_shape_mismatch :
    (∀ (k : String) (sl : List Value) (dm : Dict) (w : Value),
      dictGet dm k = some w → (∀ xs, w ≠ .arr xs) →
      mergeEntry k (.arr sl) (.map dm) = .ok (.map dm)) ∧
    (∀ (src : List (String × Value)) (dm : Dict) (k : String)
        (sl : List Value) (w : Value) (d' : Value),
      (src.map Prod.fst).Nodup →
      dictGet src k = some (.arr sl) →
      dictGet dm k = some w →
      (∀ xs, w ≠ .arr xs) →
      mergeDict src (.map dm) = .ok d' →
      ∃ dm', d' = .map dm' ∧ dictGet dm' k = some w) := by
  constructor
  · intro k sl dm w hd hnl
    unfold mergeEntry
    rw [hd]
    cases w with
    | arr xs => exact absurd rfl (hnl xs)
    | null | bool _ | int _ | float _ | str _ | bin _ | map _
    | decimal _ | date _ _ _ | datetime _ _ _ _ _ _ _ | timeofday _ _ _ => rfl
  · exact mergeDict_list_mismatch

/-- C10 — witness: a list source entry against an integer destination
value is skipped with no error. -/
theorem c10_merge_shape_mismatch_witness :
    (dictGet [("a", Value.int 5)] "a" = some (Value.int 5)) ∧
    mergeEntry "a" (.arr [.int 1]) (.map [("a", Value.int 5)]) =
      .ok (.map [("a", Value.int 5)]) :=
  ⟨rfl,
   c10_merge_shape_mismatch.1 "a" [.int 1] [("a", Value.int 5)] (Value.int 5)
     rfl (fun _ hx => Value.noConfusion hx)⟩

theorem replyTransportPath_def :
    replyTransportPath = replyBase ++ [nsTransport] := rfl

theorem getPathV_append (a b : List String) :
    ∀ v, getPathV v (a ++ b) =
      match getPathV v a with
      | some w => getPathV w b
      | none => none := by
  induction a with
  | nil => intro v; rfl
  | cons k a' ih =>
    intro v
    show getPathV v (k :: (a' ++ b)) = _
    cases hg : getStep v k with
    | none => simp [getPathV, hg]
    | some w => simp [getPathV, hg, ih w]

theorem getPathM_append (m : Dict) (a b : List String) :
    getPathM m (a ++ b) =
      match getPathM m a with
      | some w => getPathV w b
      | none => none :=
  getPathV_append a b (.map m)

/-- Decomposition of a successful map-valued traversal along its first
segment. -/
theorem getPathM_map_chain (r : Dict) (k : String) (pre₂ : List String)
    (d : Dict) (h : getPathM r (k :: pre₂) = some (.map d)) :
    ∃ m', dictGet r k = some (.map m') ∧ getPathM m' pre₂ = some (.map d) := by
  rw [getPathM_cons] at h
  cases hg : dictGet r k with
  | none => rw [hg] at h; cases h
  | some v₀ =>
    rw [hg] at h
    cases pre₂ with
    | nil =>
      have h' : some v₀ = some (Value.map d) := h
      have h'' := Option.some.inj h'
      subst h''
      exact ⟨d, rfl, rfl⟩
    | cons k₂ r₂ =>
      cases v₀ with
      | map m' => exact ⟨m', rfl, h⟩
      | null | bool _ | int _ | float _ | str _ | bin _ | arr _
      | decimal _ | date _ _ _ | datetime _ _ _ _ _ _ _
      | timeofday _ _ _ => simp [getPathV, getStep] at h

/-- Running the shared mutator walk below a map-valued path leaves the
walk's flag unchanged and rewrites exactly the sub-tree found there. -/
theorem walkMut_under (f : Dict → String → Bool × Dict) (e : Bool) :
    ∀ (pre : List String) (r d : Dict) (path : List String), path ≠ [] →
      getPathM r pre = some (.map d) →
      (walkMut f e r (pre ++ path)).1 = (walkMut f e d path).1 ∧
      getPathM (walkMut f e r (pre ++ path)).2 pre =
        some (.map (walkMut f e d path).2) := by
  intro pre
  induction pre with
  | nil =>
    intro r d path hp h
    have h' : some (Value.map r) = some (Value.map d) := h
    have h'' := Value.map.inj (Option.some.inj h')
    subst h''
    exact ⟨rfl, rfl⟩
  | cons k pre₂ ih =>
    intro r d path hp h
    obtain ⟨m', hg, h₂⟩ := getPathM_map_chain r k pre₂ d h
    have hne : pre₂ ++ path ≠ [] := by
      cases pre₂ with
      | nil => simpa using hp
      | cons a b => simp
    obtain ⟨a, b, hab⟩ := List.exists_cons_of_ne_nil hne
    have hih := ih m' d path hp h₂
    have hmain : walkMut f e r ((k :: pre₂) ++ path) =
        ((walkMut f e m' (pre₂ ++ path)).1,
          dictSet r k (.map (walkMut f e m' (pre₂ ++ path)).2)) := by
      rw [List.cons_append, hab, walkMut_cons₂, hg]
    rw [hmain]
    refine ⟨hih.1, ?_⟩
    rw [getPathM_cons, dictGet_dictSet_self]
    exact hih.2

/-- Replacing a sub-dictionary below a map-valued path rewrites exactly
the sub-tree found there. -/
theorem updAt_under :
    ∀ (pre : List String) (r d : Dict) (par : List String) (nm : Dict),
      getPathM r pre = some (.map d) →
      getPathM (updAt r (pre ++ par) nm) pre = some (.map (updAt d par nm)) := by
  intro pre
  induction pre with
  | nil =>
    intro r d par nm h
    have h' : some (Value.map r) = some (Value.map d) := h
    have h'' := Value.map.inj (Option.some.inj h')
    subst h''
    rfl
  | cons k pre₂ ih =>
    intro r d par nm h
    obtain ⟨m', hg, h₂⟩ := getPathM_map_chain r k pre₂ d h
    have hmain : updAt r ((k :: pre₂) ++ par) nm =
        dictSet r k (.map (updAt m' (pre₂ ++ par) nm)) := by
      rw [List.cons_append, updAt, hg]
    rw [hmain, getPathM_cons, dictGet_dictSet_self]
    exact ih m' d par nm h₂

theorem splitLast_cons₂ (k : String) (p : List String) (par : List String)
    (kk : String) (h : splitLast p = some (par, kk)) :
    splitLast (k :: p) = some (k :: par, kk) := by
  rw [splitLast, h]

theorem splitLast_append (xs : List String) :
    ∀ (p par : List String) (kk : String), splitLast p = some (par, kk) →
      splitLast (xs ++ p) = some (xs ++ par, kk) := by
  induction xs with
  | nil => intro p par kk h; simpa using h
  | cons a xs' ih =>
    intro p par kk h
    have h' := ih p par kk h
    show splitLast (a :: (xs' ++ p)) = _
    rw [splitLast, h']
    rfl

/-- Mirrored mutator step on the bound reply: when the reply's transport
sub-tree equals `doc` and the inner walk rewrites the transport entry to
`doc'`, the mirrored walk leaves the reply's transport sub-tree equal to
`doc'`. -/
theorem mirrorWalk_consistent (f : Dict → String → Bool × Dict) (e : Bool)
    (doc rd : Dict) (inner : List String) (doc' : Dict)
    (h : getPathM rd replyTransportPath = some (.map doc))
    (hinner : inner ≠ [])
    (hcomp : ∀ m₂, dictGet m₂ nsTransport = some (.map doc) →
      (walkMut f e m₂ inner).2 = dictSet m₂ nsTransport (.map doc')) :
    getPathM (walkMut f e rd (replyBase ++ inner)).2 replyTransportPath =
      some (.map doc') := by
  rw [replyTransportPath_def, getPathM_append] at h
  cases hga : getPathM rd replyBase with
  | none => rw [hga] at h; cases h
  | some w =>
    rw [hga] at h
    cases w with
    | map m₂ =>
      have hm₂ : dictGet m₂ nsTransport = some (.map doc) := by
        rw [← getPathM_single]; exact h
      have hu := walkMut_under f e replyBase rd m₂ inner hinner hga
      have hres := hu.2
      rw [hcomp m₂ hm₂] at hres
      rw [replyTransportPath_def, getPathM_append, hres]
      show getPathM (dictSet m₂ nsTransport (.map doc')) [nsTransport] =
        some (.map doc')
      rw [getPathM_single, dictGet_dictSet_self]
    | null | bool _ | int _ | float _ | str _ | bin _ | arr _
    | decimal _ | date _ _ _ | datetime _ _ _ _ _ _ _
    | timeofday _ _ _ => simp [getPathV, getStep] at h

/-- `TransportPayload.set` with the default prefixing and a non-empty
path preserves bound-reply consistency. -/
theorem tSet_consistent (st : TransportState) (path : List String)
    (v : Value) (hp : path ≠ []) (h : boundConsistent st) :
    boundConsistent (tSet st path v true).2 := by
  obtain ⟨doc, orep⟩ := st
  cases orep with
  | none => exact trivial
  | some rd =>
    have h' : getPathM rd replyTransportPath = some (.map doc) := h
    obtain ⟨p₁, rest, hpe⟩ := List.exists_cons_of_ne_nil hp
    subst hpe
    show getPathM (walkMut (fun mm k => (true, dictSet mm k v)) true rd
        (replyBase ++ (nsTransport :: p₁ :: rest))).2 replyTransportPath =
      some (.map (pSet doc (p₁ :: rest) v).2)
    refine mirrorWalk_consistent _ true doc rd (nsTransport :: p₁ :: rest)
      ((pSet doc (p₁ :: rest) v).2) h' (by simp) (fun m₂ hm₂ => ?_)
    rw [walkMut_cons₂, hm₂]
    rfl

/-- `TransportPayload.append` with the default prefixing preserves
bound-reply consistency (on an empty path both walks fail silently, the
reply side because the transport entry is a dictionary, not a list). -/
theorem tAppend_consistent (st : TransportState) (path : List String)
    (v : Value) (h : boundConsistent st) :
    boundConsistent (tAppend st path v true).2 := by
  obtain ⟨doc, orep⟩ := st
  cases orep with
  | none => exact trivial
  | some rd =>
    have h' : getPathM rd replyTransportPath = some (.map doc) := h
    cases path with
    | nil =>
      show getPathM (walkMut (fun mm k =>
          match dictGet mm k with
          | none => (true, dictSet mm k (.arr [v]))
          | some (.arr xs) => (true, dictSet mm k (.arr (xs ++ [v])))
          | some _ => (false, mm)) false rd
          (replyBase ++ [nsTransport])).2 replyTransportPath =
        some (.map (pAppend doc [] v).2)
      refine mirrorWalk_consistent _ false doc rd [nsTransport] doc h'
        (by simp) (fun m₂ hm₂ => ?_)
      rw [walkMut_single]
      try dsimp only
      rw [hm₂]
      exact (dictSet_self m₂ nsTransport (.map doc) hm₂).symm
    | cons p₁ rest =>
      show getPathM (walkMut (fun mm k =>
          match dictGet mm k with
          | none => (true, dictSet mm k (.arr [v]))
          | some (.arr xs) => (true, dictSet mm k (.arr (xs ++ [v])))
          | some _ => (false, mm)) false rd
          (replyBase ++ (nsTransport :: p₁ :: rest))).2 replyTransportPath =
        some (.map (pAppend doc (p₁ :: rest) v).2)
      refine mirrorWalk_consistent _ false doc rd (nsTransport :: p₁ :: rest)
        ((pAppend doc (p₁ :: rest) v).2) h' (by simp) (fun m₂ hm₂ => ?_)
      rw [walkMut_cons₂, hm₂]
      rfl

/-- `TransportPayload.extend` with the default prefixing preserves
bound-reply consistency. -/
theorem tExtend_consistent (st : TransportState) (path : List String)
    (vs : List Value) (h : boundConsistent st) :
    boundConsistent (tExtend st path vs true).2 := by
  obtain ⟨doc, orep⟩ := st
  cases orep with
  | none => exact trivial
  | some rd =>
    have h' : getPathM rd replyTransportPath = some (.map doc) := h
    cases path with
    | nil =>
      show getPathM (walkMut (fun mm k =>
          match dictGet mm k with
          | none => (true, dictSet mm k (.arr vs))
          | some (.arr xs) => (true, dictSet mm k (.arr (xs ++ vs)))
          | some _ => (false, mm)) false rd
          (replyBase ++ [nsTransport])).2 replyTransportPath =
        some (.map (pExtend doc [] vs).2)
      refine mirrorWalk_consistent _ false doc rd [nsTransport] doc h'
        (by simp) (fun m₂ hm₂ => ?_)
      rw [walkMut_single]
      try dsimp only
      rw [hm₂]
      exact (dictSet_self m₂ nsTransport (.map doc) hm₂).symm
    | cons p₁ rest =>
      show getPathM (walkMut (fun mm k =>
          match dictGet mm k with
          | none => (true, dictSet mm k (.arr vs))
          | some (.arr xs) => (true, dictSet mm k (.arr (xs ++ vs)))
          | some _ => (false, mm)) false rd
          (replyBase ++ (nsTransport :: p₁ :: rest))).2 replyTransportPath =
        some (.map (pExtend doc (p₁ :: rest) vs).2)
      refine mirrorWalk_consistent _ false doc rd (nsTransport :: p₁ :: rest)
        ((pExtend doc (p₁ :: rest) vs).2) h' (by simp) (fun m₂ hm₂ => ?_)
      rw [walkMut_cons₂, hm₂]
      rfl

theorem tDelete_mk (doc : Dict) (orep : Option Dict) (path : List String)
    (pf : Bool) :
    tDelete ⟨doc, orep⟩ path pf =
      match pDelete doc path with
      | .error e => .error e
      | .ok r =>
        .ok (r.1, ⟨r.2,
          match orep with
          | none => none
          | some rd =>
            match pDelete rd (replyEffPath pf (nsTransport :: path)) with
            | .ok r₂ => some r₂.2
            | .error _ => some rd⟩) := rfl

theorem tMerge_mk (doc : Dict) (orep : Option Dict) (src : Dict) :
    tMerge ⟨doc, orep⟩ src =
      match mergePaths src doc MERGEABLE_PATHS with
      | .error e => .error e
      | .ok doc' =>
        .ok (true, ⟨doc',
          match orep with
          | none => none
          | some rd =>
            some (pSet rd (replyEffPath true [nsTransport]) (.map doc')).2⟩) := rfl

theorem pDelete_eval_none (m : Dict) (path par : List String) (kk : String)
    (hsp : splitLast path = some (par, kk)) (hw : getPathM m par = none) :
    pDelete m path = .ok (false, m) := by
  rw [pDelete, hsp]
  dsimp only
  rw [hw]

theorem pDelete_eval_map (m : Dict) (path par : List String) (kk : String)
    (pm : Dict) (hsp : splitLast path = some (par, kk))
    (hw : getPathM m par = some (.map pm)) :
    pDelete m path =
      if (dictGet pm kk).isSome then .ok (true, updAt m par (dictDel pm kk))
      else .ok (false, m) := by
  rw [pDelete, hsp]
  dsimp only
  rw [hw]

theorem pDelete_eval_nonmap (m : Dict) (path par : List String) (kk : String)
    (w : Value) (hsp : splitLast path = some (par, kk))
    (hw : getPathM m par = some w) (hnm : ∀ pm, w ≠ .map pm) :
    pDelete m path = .ok (false, m) := by
  rw [pDelete, hsp]
  dsimp only
  rw [hw]
  cases w with
  | map pm => exact absurd rfl (hnm pm)
  | null | bool _ | int _ | float _ | str _ | bin _ | arr _ | decimal _
  | date _ _ _ | datetime _ _ _ _ _ _ _ | timeofday _ _ _ => rfl

/-- The reply-side parent of a mirrored delete resolves to the same
parent the transport-side delete resolves to. -/
theorem replyParent_eq (rd doc : Dict) (par : List String)
    (h : getPathM rd replyTransportPath = some (.map doc)) :
    getPathM rd (replyBase ++ (nsTransport :: par)) = getPathM doc par := by
  rw [List.append_cons, ← replyTransportPath_def, getPathM_append, h]
  rfl

/-- `TransportPayload.delete` with the default prefixing preserves
bound-reply consistency whenever it returns (an empty path raises
before either view is touched). -/
theorem tDelete_consistent (st : TransportState) (path : List String)
    (r : Bool × TransportState) (h : boundConsistent st)
    (hok : tDelete st path true = .ok r) : boundConsistent r.2 := by
  obtain ⟨doc, orep⟩ := st
  cases orep with
  | none =>
    cases hd : pDelete doc path with
    | error e => rw [tDelete_mk, hd] at hok; exact Except.noConfusion hok
    | ok rr =>
      rw [tDelete_mk, hd] at hok
      have hr : ((rr.1, (⟨rr.2, none⟩ : TransportState)) :
          Bool × TransportState) = r := Except.ok.inj hok
      subst hr
      exact trivial
  | some rd =>
    have h' : getPathM rd replyTransportPath = some (.map doc) := h
    cases hsp : splitLast path with
    | none =>
      have hdoc : pDelete doc path =
          .error "ValueError: not enough values to unpack" := by
        rw [pDelete, hsp]
      rw [tDelete_mk, hdoc] at hok
      exact Except.noConfusion hok
    | some pk =>
      obtain ⟨par, kk⟩ := pk
      have hsp₂ : splitLast (nsTransport :: path) =
          some (nsTransport :: par, kk) := splitLast_cons₂ nsTransport path par kk hsp
      have hsp₃ : splitLast (replyBase ++ (nsTransport :: path)) =
          some (replyBase ++ (nsTransport :: par), kk) :=
        splitLast_append replyBase (nsTransport :: path) (nsTransport :: par) kk hsp₂
      have hpar := replyParent_eq rd doc par h'
      cases hgp : getPathM doc par with
      | none =>
        have hdoc : pDelete doc path = .ok (false, doc) :=
          pDelete_eval_none doc path par kk hsp hgp
        have hrep : pDelete rd (replyEffPath true (nsTransport :: path)) =
            .ok (false, rd) :=
          pDelete_eval_none rd (replyBase ++ (nsTransport :: path))
            (replyBase ++ (nsTransport :: par)) kk hsp₃ (hpar.trans hgp)
        rw [tDelete_mk, hdoc] at hok
        dsimp only at hok
        rw [hrep] at hok
        have hr : ((false, (⟨doc, some rd⟩ : TransportState)) :
            Bool × TransportState) = r := Except.ok.inj hok
        subst hr
        exact h
      | some w =>
        cases w with
        | map pm =>
          cases hdg : dictGet pm kk with
          | none =>
            have hdoc : pDelete doc path = .ok (false, doc) := by
              rw [pDelete_eval_map doc path par kk pm hsp hgp, hdg]
              rfl
            have hrep : pDelete rd (replyEffPath true (nsTransport :: path)) =
                .ok (false, rd) := by
              show pDelete rd (replyBase ++ (nsTransport :: path)) = _
              rw [pDelete_eval_map rd (replyBase ++ (nsTransport :: path))
                (replyBase ++ (nsTransport :: par)) kk pm hsp₃
                (hpar.trans hgp), hdg]
              rfl
            rw [tDelete_mk, hdoc] at hok
            dsimp only at hok
            rw [hrep] at hok
            have hr : ((false, (⟨doc, some rd⟩ : TransportState)) :
                Bool × TransportState) = r := Except.ok.inj hok
            subst hr
            exact h
          | some wv =>
            have hdoc : pDelete doc path =
                .ok (true, updAt doc par (dictDel pm kk)) := by
              rw [pDelete_eval_map doc path par kk pm hsp hgp, hdg]
              rfl
            have hrep : pDelete rd (replyEffPath true (nsTransport :: path)) =
                .ok (true, updAt rd (replyBase ++ (nsTransport :: par))
                  (dictDel pm kk)) := by
              show pDelete rd (replyBase ++ (nsTransport :: path)) = _
              rw [pDelete_eval_map rd (replyBase ++ (nsTransport :: path))
                (replyBase ++ (nsTransport :: par)) kk pm hsp₃
                (hpar.trans hgp), hdg]
              rfl
            rw [tDelete_mk, hdoc] at hok
            dsimp only at hok
            rw [hrep] at hok
            have hr : ((true, (⟨updAt doc par (dictDel pm kk),
                some (updAt rd (replyBase ++ (nsTransport :: par))
                  (dictDel pm kk))⟩ : TransportState)) :
                Bool × TransportState) = r := Except.ok.inj hok
            subst hr
            show getPathM (updAt rd (replyBase ++ (nsTransport :: par))
                (dictDel pm kk)) replyTransportPath =
              some (.map (updAt doc par (dictDel pm kk)))
            rw [show replyBase ++ (nsTransport :: par) =
                replyTransportPath ++ par from by
              rw [List.append_cons, replyTransportPath_def]]
            exact updAt_under replyTransportPath rd doc par (dictDel pm kk) h'
        | null | bool _ | int _ | float _ | str _ | bin _ | arr _
        | decimal _ | date _ _ _ | datetime _ _ _ _ _ _ _
        | timeofday _ _ _ =>
          have hdoc : pDelete doc path = .ok (false, doc) :=
            pDelete_eval_nonmap doc path par kk _ hsp hgp
              (by intro pm hc; cases hc)
          have hrep : pDelete rd (replyEffPath true (nsTransport :: path)) =
              .ok (false, rd) :=
            pDelete_eval_nonmap rd (replyBase ++ (nsTransport :: path))
              (replyBase ++ (nsTransport :: par)) kk _ hsp₃ (hpar.trans hgp)
              (by intro pm hc; cases hc)
          rw [tDelete_mk, hdoc] at hok
          dsimp only at hok
          rw [hrep] at hok
          have hr : ((false, (⟨doc, some rd⟩ : TransportState)) :
              Bool × TransportState) = r := Except.ok.inj hok
          subst hr
          exact h

/-- `TransportPayload.merge_runtime_call_transport` preserves bound-reply
consistency whenever it returns: the final full-tree replace writes the
merged transport over the reply's transport sub-tree. -/
theorem tMerge_consistent (st : TransportState) (src : Dict)
    (r : Bool × TransportState) (h : boundConsistent st)
    (hok : tMerge st src = .ok r) : boundConsistent r.2 := by
  obtain ⟨doc, orep⟩ := st
  cases hm : mergePaths src doc MERGEABLE_PATHS with
  | error e => rw [tMerge_mk, hm] at hok; exact Except.noConfusion hok
  | ok doc' =>
    rw [tMerge_mk, hm] at hok
    cases orep with
    | none =>
      have hr : ((true, (⟨doc', none⟩ : TransportState)) :
          Bool × TransportState) = r := Except.ok.inj hok
      subst hr
      exact trivial
    | some rd =>
      have h' : getPathM rd replyTransportPath = some (.map doc) := h
      have hr : ((true, (⟨doc',
          some (pSet rd (replyEffPath true [nsTransport]) (.map doc')).2⟩ :
          TransportState)) : Bool × TransportState) = r := Except.ok.inj hok
      subst hr
      show getPathM (walkMut (fun mm k => (true, dictSet mm k (.map doc')))
          true rd (replyBase ++ [nsTransport])).2 replyTransportPath =
        some (.map doc')
      refine mirrorWalk_consistent _ true doc rd [nsTransport] doc' h'
        (by simp) (fun m₂ hm₂ => ?_)
      rw [walkMut_single]

/-- C8 — counterexample: bound-reply consistency is not preserved by
every `set`.  With `prefix=False` the mirrored write lands on the
reply's top-level `transport` key instead of the prefixed transport
sub-tree, and a prefixed `set` with an empty path overwrites the
reply's transport sub-tree with the raw value while leaving the
transport itself unchanged. -/
theorem c8_bound_reply_counterexample :
    boundConsistent
      (⟨[], some [(nsCommandReply, Value.map [(nsResult,
        Value.map [(nsTransport, Value.map [])])])]⟩ : TransportState) ∧
    ¬ boundConsistent (tSet (⟨[], some [(nsCommandReply, Value.map [(nsResult,
        Value.map [(nsTransport, Value.map [])])])]⟩ : TransportState)
        ["k"] (.int 1) false).2 ∧
    ¬ boundConsistent (tSet (⟨[], some [(nsCommandReply, Value.map [(nsResult,
        Value.map [(nsTransport, Value.map [])])])]⟩ : TransportState)
        [] (.str "x") true).2 := by
  refine ⟨rfl, ?_, ?_⟩
  · intro hcb
    have h₂ : (some (Value.map ([] : Dict)) : Option Value) =
        some (Value.map [("k", Value.int 1)]) := hcb
    simp at h₂
  · intro hcb
    have h₂ : (some (Value.str "x") : Option Value) =
        some (Value.map ([] : Dict)) := hcb
    simp at h₂

/-- C8: bound-reply consistency invariant.  If the reply's transport
sub-tree equals the transport's contents, it does so again after any
`set` with a non-empty path, any `append`, `extend` or (returning)
`delete` — all with the default path prefixing — and after
`merge_runtime_call_transport`. -/
theorem c8_bound_reply_invariant :
    (∀ (st : TransportState) (path : List String) (v : Value),
      path ≠ [] → boundConsistent st →
      boundConsistent (tSet st path v true).2) ∧
    (∀ (st : TransportState) (path : List String) (v : Value),
      boundConsistent st → boundConsistent (tAppend st path v true).2) ∧
    (∀ (st : TransportState) (path : List String) (vs : List Value),
      boundConsistent st → boundConsistent (tExtend st path vs true).2) ∧
    (∀ (st : TransportState) (path : List String) (r : Bool × TransportState),
      boundConsistent st → tDelete st path true = .ok r →
      boundConsistent r.2) ∧
    (∀ (st : TransportState) (src : Dict) (r : Bool × TransportState),
      boundConsistent st → tMerge st src = .ok r → boundConsistent r.2) :=
  ⟨fun st path v hp h => tSet_consistent st path v hp h,
   fun st path v h => tAppend_consistent st path v h,
   fun st path vs h => tExtend_consistent st path vs h,
   fun st path r h hok => tDelete_consistent st path r h hok,
   fun st src r h hok => tMerge_consistent st src r h hok⟩

/-- C8 — witness: the invariant theorem applied to concrete bound
transports for each of the five operations. -/
theorem c8_bound_reply_invariant_witness :
    ((["a"] : List String) ≠ []) ∧
    boundConsistent (tSet c8StW ["a"] (.int 7) true).2 ∧
    boundConsistent (tAppend c8StW ["ys"] (.int 1) true).2 ∧
    boundConsistent (tExtend c8StW [] [.int 1] true).2 ∧
    tDelete c8StW ["x"] true = .ok (true, c8StEmpty) ∧
    boundConsistent c8StEmpty ∧
    tMerge c8StEmpty c8Src = .ok (true, c8StMrg) ∧
    boundConsistent c8StMrg :=
  ⟨by decide,
   c8_bound_reply_invariant.1 c8StW ["a"] (.int 7) (by decide) rfl,
   c8_bound_reply_invariant.2.1 c8StW ["ys"] (.int 1) rfl,
   c8_bound_reply_invariant.2.2.1 c8StW [] [.int 1] rfl,
   rfl,
   c8_bound_reply_invariant.2.2.2.1 c8StW ["x"] (true, c8StEmpty) rfl rfl,
   rfl,
   c8_bound_reply_invariant.2.2.2.2 c8StEmpty c8Src (true, c8StMrg) rfl rfl⟩

/-- C3: response flags for service callbacks.  A reply whose transport
registers exactly one pending outbound call for the service and
version and holds no files, transactions or download produces exactly
the service-call flag byte; a reply whose transport has none of the
four sections — and a reply with no transport at all — produces the
empty-flags sentinel byte. -/
theorem c3_response_flags :
    (∀ (rd t cm : Dict) (s v : String),
      getPathM rd (replyBase ++ [nsTransport]) = some (.map t) →
      getPathM t [nsCalls, s, v] = some (.arr [Value.map cm]) →
      (dictGet cm nsDuration = none ∨ dictGet cm nsDuration = some .null) →
      dictGet t nsFiles = none →
      dictGet t nsTransactions = none →
      dictGet t nsBody = none →
      processResponseFlags rd s v = .ok SERVICE_CALL) ∧
    (∀ (rd t : Dict) (s v : String),
      getPathM rd (replyBase ++ [nsTransport]) = some (.map t) →
      dictGet t nsCalls = none →
      dictGet t nsFiles = none →
      dictGet t nsTransactions = none →
      dictGet t nsBody = none →
      processResponseFlags rd s v = .ok EMPTY_META) ∧
    (∀ (rd : Dict) (s v : String),
      getPathM rd (replyBase ++ [nsTransport]) = none →
      processResponseFlags rd s v = .ok EMPTY_META) := by
  refine ⟨?_, ?_, ?_⟩
  · intro rd t cm s v hrt hcalls hdur hfiles htx hbody
    cases t with
    | nil =>
      rw [getPathM_nil_cons] at hcalls
      exact Option.noConfusion hcalls
    | cons p t' =>
      have hgt : get_transport rd = .ok (some (p :: t')) := by
        unfold get_transport
        rw [hrt]
        rfl
      have h1 : has_calls (p :: t') s v = true := by
        unfold has_calls
        rw [hcalls]
        show List.any [Value.map cm] callPending = true
        rcases hdur with h | h <;> simp [List.any, callPending, h]
      have h2 : has_files (p :: t') = false := by
        unfold has_files pExists
        rw [getPathM_single, hfiles]
        rfl
      have h3 : has_transactions (p :: t') = false := by
        unfold has_transactions pExists
        rw [getPathM_single, htx]
        rfl
      have h4 : has_download (p :: t') = false := by
        unfold has_download pExists
        rw [getPathM_single, hbody]
        rfl
      unfold processResponseFlags
      rw [hgt]
      dsimp only
      rw [h1, h2, h3, h4]
      rfl
  · intro rd t s v hrt hcalls hfiles htx hbody
    cases t with
    | nil =>
      have hgt : get_transport rd = .ok none := by
        unfold get_transport
        rw [hrt]
        rfl
      unfold processResponseFlags
      rw [hgt]
    | cons p t' =>
      have hgt : get_transport rd = .ok (some (p :: t')) := by
        unfold get_transport
        rw [hrt]
        rfl
      have h1 : has_calls (p :: t') s v = false := by
        unfold has_calls
        rw [getPathM_cons, hcalls]
      have h2 : has_files (p :: t') = false := by
        unfold has_files pExists
        rw [getPathM_single, hfiles]
        rfl
      have h3 : has_transactions (p :: t') = false := by
        unfold has_transactions pExists
        rw [getPathM_single, htx]
        rfl
      have h4 : has_download (p :: t') = false := by
        unfold has_download pExists
        rw [getPathM_single, hbody]
        rfl
      unfold processResponseFlags
      rw [hgt]
      dsimp only
      rw [h1, h2, h3, h4]
      rfl
  · intro rd s v h
    have hgt : get_transport rd = .ok none := by
      unfold get_transport
      rw [h]
    unfold processResponseFlags
    rw [hgt]

/-- C3 — witness: the flag computation on three concrete replies. -/
theorem c3_response_flags_witness :
    processResponseFlags c3ReplyCall "users" "1.0" = .ok SERVICE_CALL ∧
    processResponseFlags c3ReplyQuiet "users" "1.0" = .ok EMPTY_META ∧
    processResponseFlags [] "users" "1.0" = .ok EMPTY_META :=
  ⟨c3_response_flags.1 c3ReplyCall
     [(nsCalls, Value.map [("users", Value.map [("1.0",
       Value.arr [Value.map [("name", Value.str "posts")]])])])]
     [("name", Value.str "posts")] "users" "1.0"
     rfl rfl (Or.inl rfl) rfl rfl rfl,
   c3_response_flags.2.1 c3ReplyQuiet [(nsMeta, Value.str "m")]
     "users" "1.0" rfl rfl rfl rfl rfl,
   c3_response_flags.2.2 [] "users" "1.0" rfl⟩

/-- C4: unknown action dispatch.  A request naming an action with no
registered callback yields the invalid-action error stream with zero
suspensions consumed — independently of the callback machinery and of
the configured execution timeout, which therefore can neither run nor
time the request out — and the error message starts with
`"Invalid action for component"`. -/
theorem c4_unknown_action (registered : List String)
    (name version rid action : String)
    (runAction : String → Nat × (String × List Nat × Dict)) (timeout : Nat)
    (h : action ∉ registered) :
    processRequest registered name version rid action runAction =
      (0, (rid, EMPTY_META, errorPayloadNew ("Invalid action for component " ++
        getComponentTitle name version ++ ": \"" ++ action ++ "\""))) ∧
    handleRequest registered name version rid action runAction timeout =
      (rid, EMPTY_META, errorPayloadNew ("Invalid action for component " ++
        getComponentTitle name version ++ ": \"" ++ action ++ "\"")) ∧
    ∃ rest, "Invalid action for component " ++
        getComponentTitle name version ++ ": \"" ++ action ++ "\"" =
      "Invalid action for component " ++ rest := by
  refine ⟨?_, ?_,
    ⟨getComponentTitle name version ++ ": \"" ++ action ++ "\"", ?_⟩⟩
  · unfold processRequest
    rw [if_neg h]
    rfl
  · unfold handleRequest processRequest
    rw [if_neg h]
    dsimp only
    rw [if_neg (Nat.not_lt_zero timeout)]
    rfl
  · simp [String.append_assoc]

/-- C4 — witness: a concrete unregistered action on a component named
`posts`, with a callback model and a timeout that are visibly never
used. -/
theorem c4_unknown_action_witness :
    ("bogus" ∉ (["users"] : List String)) ∧
    handleRequest ["users"] "posts" "1.0" "rid1" "bogus"
      (fun _ => (5, ("rid1", EMPTY_META, []))) 10000 =
      ("rid1", EMPTY_META, errorPayloadNew
        "Invalid action for component \"posts\" (1.0): \"bogus\"") :=
  ⟨by decide,
   (c4_unknown_action ["users"] "posts" "1.0" "rid1" "bogus"
     (fun _ => (5, ("rid1", EMPTY_META, []))) 10000 (by decide)).2.1⟩

/-- C9: call timeout.  A run-time call whose single poll observes no
event within the configured window fails with the message exactly
`"Run-time call failed: Timeout"`, whatever events the socket would
deliver to later polls — the call consumes one observation and never
retries. -/
theorem c9_call_timeout (transport : Dict) (rest : List PollEvent) :
    clientCall (some transport) (PollEvent.noEvent :: rest) =
      .error "Run-time call failed: Timeout" ∧
    clientCall (some transport) [] =
      .error "Run-time call failed: Timeout" :=
  ⟨rfl, rfl⟩

end KusanagiSDK
